import Mathlib

/-!
# Verification of the disaster-control drone simulation engine

Shallow embedding of `src/config_params.py`: entity model, link-capacity
model, network-topology builder, routing queries and the per-tick update
`update_simulation`, together with proofs of the specification claims.

Modelling conventions:
* All numeric quantities are exact rationals (`ℚ`).  Python's
  `np.linalg.norm` produces square roots, so every distance comparison in
  the source (`dist <= R`, `dist > R`, `dist < 100`, `norm > 1`) is embedded
  as the equivalent comparison of squared distances against the squared
  threshold (both sides are nonnegative, so the comparisons agree).
* The link-capacity formula only depends on the squared distance:
  `(dist/MAX_5G_RANGE)**2 = distSq/MAX_5G_RANGE²`, and
  `dist > MAX_5G_RANGE ↔ distSq > MAX_5G_RANGE²`; `capOfSq` is that
  rewriting and `calculate_link_capacity` is the literal formula on a
  rational distance argument; `calculate_link_capacity_eq_capOfSq` proves
  they agree on nonnegative distances.
* `Drone.move` normalises a direction vector (dividing by a square root,
  irrational in general) and `form_drone_cluster` uses `cos`/`sin` offsets,
  so the tick function is parameterised by the movement function `mv` and
  the formation-offset table `foff`; every claim proved below holds for all
  such parameters, hence in particular for the concrete irrational ones.
* `networkx.DiGraph` is embedded as a capacity function on a node type
  (capacity 0 = no edge; the builder only adds edges of positive capacity,
  and the two wired edges have capacity `TOWER_TO_STATION_CAPACITY > 0`).
  `nx.shortest_path` returns a minimal-weight path; it is embedded as the
  first minimal-weight simple path in a canonical enumeration, and the
  theorems prove minimality over arbitrary walks.
-/

/-! ## Configuration constants (`config_params.py`, module level) -/

def AREA_SIZE : ℚ := 500
def DT : ℚ := 1
def NUM_DRONES : ℕ := 8
def DRONE_SPEED : ℚ := 5
def DRONE_ALTITUDE : ℚ := 80
def COVERAGE_RADIUS : ℚ := 120
def SEARCH_RADIUS : ℚ := 150
def BATTERY_INIT : ℚ := 15000
def BATTERY_DRAIN_IDLE : ℚ := 15
def BATTERY_DRAIN_MOVING : ℚ := 25
def BATTERY_DRAIN_RELAY : ℚ := 30
def MAX_5G_RANGE : ℚ := 300
def LINK_CAPACITY_MAX : ℚ := 100
def TOWER_TO_STATION_CAPACITY : ℚ := 1000
def RELAY_HOP_PENALTY : ℚ := 7/10
def MIN_CLUSTER_SIZE : ℕ := 3
def CLUSTER_FORMATION_THRESHOLD : ℕ := 10

/-- 3D position, exact coordinates. -/
abbrev Pos : Type := ℚ × ℚ × ℚ

/-- `TOWER_POSITION = np.array([250, 250, 100])`. -/
def TOWER_POSITION : Pos := (250, 250, 100)

/-- `STATION_POSITION = np.array([250, 250, 0])`. -/
def STATION_POSITION : Pos := (250, 250, 0)

/-- Squared planar (2D) distance, embedding `np.linalg.norm(a[:2]-b[:2])**2`. -/
def sq2 (a b : Pos) : ℚ := (a.1 - b.1)^2 + (a.2.1 - b.2.1)^2

/-- Squared 3D distance, embedding `np.linalg.norm(a-b)**2`. -/
def sq3 (a b : Pos) : ℚ := (a.1 - b.1)^2 + (a.2.1 - b.2.1)^2 + (a.2.2 - b.2.2)^2

/-! ## Entity model -/

/-- `Drone.mode`: "SEARCH", "RESCUE", "RELAY", "CLUSTER". -/
inductive Mode : Type
| SEARCH
| RESCUE
| RELAY
| CLUSTER
deriving DecidableEq, Repr

/-- The `Drone` entity (`config_params.py`, class `Drone`). -/
structure Drone : Type where
  id : ℕ
  pos : Pos
  battery : ℚ
  alive : Bool
  target : Option Pos
  mode : Mode
  cluster_id : Option ℕ
  detected_victims : List ℕ
deriving DecidableEq, Repr

/-- The `User` (victim) entity (`config_params.py`, class `User`). -/
structure User : Type where
  id : ℕ
  pos : Pos
  group_size : ℕ
  served : Bool
  detected : Bool
  detected_by : Option ℕ
  throughput : ℚ
  connected_drone : Option ℕ
  hops_to_tower : Option ℕ
deriving DecidableEq, Repr

/-! ## Link capacity model (`calculate_link_capacity`) -/

/-- `calculate_link_capacity(dist, los)` on a rational distance argument:
`0` beyond `MAX_5G_RANGE`, otherwise
`max(0, LINK_CAPACITY_MAX * (1 - (dist/MAX_5G_RANGE)**2) * los_factor)`. -/
def calculate_link_capacity (dist : ℚ) (los : Bool) : ℚ :=
  if MAX_5G_RANGE < dist then 0
  else max 0 (LINK_CAPACITY_MAX * (1 - (dist / MAX_5G_RANGE)^2) *
      (if los then 1 else 3/5))

/-- `calculate_link_capacity` rewritten in the squared-distance variable
(the form used when composing with `np.linalg.norm`, whose square is
rational): `(dist/MAX_5G_RANGE)² = distSq/MAX_5G_RANGE²` and
`dist > MAX_5G_RANGE ↔ distSq > MAX_5G_RANGE²` for `dist ≥ 0`. -/
def capOfSq (distSq : ℚ) (los : Bool) : ℚ :=
  if MAX_5G_RANGE^2 < distSq then 0
  else max 0 (LINK_CAPACITY_MAX * (1 - distSq / MAX_5G_RANGE^2) *
      (if los then 1 else 3/5))

/-! ## Network topology (`build_network_graph`) -/

/-- Graph nodes: the monitoring station, the tower, and one node per alive
drone (`'station'`, `'tower'`, `f'd{id}'`). -/
inductive Node : Type
| station
| tower
| drone (i : ℕ)
deriving DecidableEq, Repr

/-- The directed topology graph: the id list of the drone nodes present,
plus the `capacity` and (squared) `distance` edge attributes as total
functions (capacity `0` encodes "no edge": the builder only ever adds
edges with strictly positive capacity). -/
structure NetGraph : Type where
  droneIds : List ℕ
  cap : Node → Node → ℚ
  distSq : Node → Node → ℚ

/-- The alive drones of a fleet, in list order. -/
def aliveDrones (ds : List Drone) : List Drone := ds.filter (fun d => d.alive)

/-- First alive drone with the given id (node lookup in the built graph). -/
def lookupAlive (ds : List Drone) (i : ℕ) : Option Drone :=
  (aliveDrones ds).find? (fun d => d.id == i)

/-- Edge capacities of `build_network_graph(drones, tower, station)`:
wired tower↔station edges with `TOWER_TO_STATION_CAPACITY`; a drone→tower
edge and drone→drone edges whenever `calculate_link_capacity` of the 3D
distance is positive (an `if capacity > 0` guard is unnecessary here
because capacity 0 already encodes edge absence). -/
def buildCap (ds : List Drone) : Node → Node → ℚ
| Node.tower, Node.station => TOWER_TO_STATION_CAPACITY
| Node.station, Node.tower => TOWER_TO_STATION_CAPACITY
| Node.drone i, Node.tower =>
    match lookupAlive ds i with
    | some d => capOfSq (sq3 d.pos TOWER_POSITION) true
    | none => 0
| Node.drone i, Node.drone j =>
    if i = j then 0
    else
      match lookupAlive ds i, lookupAlive ds j with
      | some d, some d2 => capOfSq (sq3 d.pos d2.pos) true
      | _, _ => 0
| _, _ => 0

/-- Squared-distance edge attributes of `build_network_graph` (the wired
edges are stored with `distance=0`). -/
def buildDistSq (ds : List Drone) : Node → Node → ℚ
| Node.tower, Node.station => 0
| Node.station, Node.tower => 0
| Node.drone i, Node.tower =>
    match lookupAlive ds i with
    | some d => sq3 d.pos TOWER_POSITION
    | none => 0
| Node.drone i, Node.drone j =>
    if i = j then 0
    else
      match lookupAlive ds i, lookupAlive ds j with
      | some d, some d2 => sq3 d.pos d2.pos
      | _, _ => 0
| _, _ => 0

/-- `build_network_graph(drones, tower, station)` with the fixed tower and
station of the simulation. -/
def build_network_graph (ds : List Drone) : NetGraph where
  droneIds := (aliveDrones ds).map (fun d => d.id)
  cap := buildCap ds
  distSq := buildDistSq ds

/-- The node list of the graph. -/
def nodesOf (G : NetGraph) : List Node :=
  Node.station :: Node.tower :: G.droneIds.map Node.drone

/-- Edge test: an edge is present iff its capacity is positive. -/
def adjB (G : NetGraph) (u v : Node) : Bool := decide (0 < G.cap u v)

/-! ## Walks, weights and the routing queries
(`find_best_path_to_tower`, `find_path_to_station`) -/

/-- A (possibly non-simple) walk: a nonempty node list whose consecutive
pairs are all edges of `G`. -/
def walkB (G : NetGraph) : List Node → Bool
| [] => false
| [_] => true
| u :: v :: rest => adjB G u v && walkB G (v :: rest)

/-- Total weight of a node list under the `nx.shortest_path` weight
function `lambda u, v, d: 1/max(d['capacity'], 1)`. -/
def wt (G : NetGraph) : List Node → ℚ
| u :: v :: rest => 1 / max (G.cap u v) 1 + wt G (v :: rest)
| _ => 0

/-- Minimum single-edge capacity along a path (the `min_capacity` loop of
both routing queries, started from `float('inf')`; on lists with fewer
than two nodes — never produced by the queries used here — it returns 0). -/
def minCapOf (G : NetGraph) : List Node → ℚ
| [u, v] => G.cap u v
| u :: v :: rest => min (G.cap u v) (minCapOf G (v :: rest))
| _ => 0

/-- Exhaustive enumeration of the simple paths from `u` to `t` that avoid
the already-visited nodes `vis`, with a fuel bound on the path length. -/
def extPaths (G : NetGraph) (t : Node) : ℕ → Node → List Node → List (List Node)
| 0, _, _ => []
| fuel+1, u, vis =>
  if u = t then [[t]]
  else
    ((nodesOf G).filter
        (fun v => adjB G u v && decide (v ∉ u :: vis))).flatMap
      (fun v => (extPaths G t fuel v (u :: vis)).map (fun p => u :: p))

/-- Fuel bound sufficient for every simple path of `G`. -/
def FUEL (G : NetGraph) : ℕ := (nodesOf G).length + 1

/-- All simple paths of `G` from `u` to `t`. -/
def simplePathsBetween (G : NetGraph) (u t : Node) : List (List Node) :=
  extPaths G t (FUEL G) u []

/-- First element of minimal weight (the embedding of the library routine
`nx.shortest_path`, whose contract is to return a minimal-weight path). -/
def pickMinBy (w : List Node → ℚ) : List (List Node) → Option (List Node)
| [] => none
| p :: ps =>
  match pickMinBy w ps with
  | none => some p
  | some q => if w p ≤ w q then some p else some q

/-- `find_best_path_to_tower(G, drone_id)`: a minimal-weight path to the
tower; on success returns `(path, len(path)-1, min_capacity *
RELAY_HOP_PENALTY**(len(path)-2))`, on `NetworkXNoPath` returns
`(None, None, 0)`. -/
def find_best_path_to_tower (G : NetGraph) (drone_id : ℕ) :
    Option (List Node) × Option ℕ × ℚ :=
  match pickMinBy (wt G) (simplePathsBetween G (Node.drone drone_id) Node.tower) with
  | none => (none, none, 0)
  | some p =>
      (some p, some (p.length - 1),
        minCapOf G p * RELAY_HOP_PENALTY ^ (p.length - 2))

/-- Whether a node label starts with `'d'` (is a drone node). -/
def isDroneNode : Node → Bool
| Node.drone _ => true
| _ => false

/-- `find_path_to_station(G, drone_id)`: a minimal-weight path to the
station; `wireless_hops = len([p for p in path if p.startswith('d')]) - 1`
and the effective capacity is `min_capacity *
RELAY_HOP_PENALTY**max(0, wireless_hops)` (truncated `ℕ` subtraction
embeds the `max(0, ·)` clamp); on `NetworkXNoPath` returns `(None, None, 0)`. -/
def find_path_to_station (G : NetGraph) (drone_id : ℕ) :
    Option (List Node) × Option ℕ × ℚ :=
  match pickMinBy (wt G) (simplePathsBetween G (Node.drone drone_id) Node.station) with
  | none => (none, none, 0)
  | some p =>
      (some p, some (p.length - 1),
        minCapOf G p * RELAY_HOP_PENALTY ^ ((p.filter isDroneNode).length - 1))

/-- Reachability in the directed graph `G`. -/
inductive Reaches (G : NetGraph) : Node → Node → Prop
| refl (u : Node) : Reaches G u u
| step {u v t : Node} : adjB G u v = true → Reaches G v t → Reaches G u t

/-! ### Removing cycles from a walk -/

/-- The suffix of `xs` starting at the first occurrence of `x`. -/
def fromFirst (x : Node) : List Node → List Node
| [] => []
| y :: ys => if y = x then y :: ys else fromFirst x ys

/-- Remove cycles from a node list: whenever the head reappears later,
jump to its last relevant occurrence.  Produces a duplicate-free list with
the same endpoints, and (on walks) a walk of no greater weight. -/
def shortcut : List Node → List Node
| [] => []
| x :: xs =>
  if x ∈ xs then shortcut (fromFirst x xs)
  else x :: shortcut xs
termination_by l => l.length
decreasing_by
· simp only [List.length_cons]
  have H : ∀ (a : Node) (l : List Node), (fromFirst a l).length ≤ l.length := by
    intro a l
    induction l with
    | nil => simp [fromFirst]
    | cons y ys ih =>
      by_cases h : y = a
      · simp [fromFirst, h]
      · simp only [fromFirst, if_neg h]
        exact le_trans ih (by simp)
  exact Nat.lt_succ_of_le (H _ _)
· simp

/-- Concrete one-drone fleet used to exercise the routing queries: the
drone hovers 60 m above the tower (squared distance 3600, link capacity
96). -/
def droneW : Drone :=
  { id := 0, pos := (250, 250, 160), battery := BATTERY_INIT, alive := true,
    target := none, mode := Mode.SEARCH, cluster_id := none,
    detected_victims := [] }

def dsW : List Drone := [droneW]

/-! ### Shape of drone-to-station paths -/

/-- Number of wireless hops of a path in the sense of the specification
text: an edge between two drones or from a drone to the tower.
Modelled from the spec: this is the spec's reading of `wireless_hops`, to
be compared with the code's `len([p for p in path if p.startswith('d')]) - 1`. -/
def wirelessEdgeCount : List Node → ℕ
| u :: v :: rest =>
    (if isDroneNode u = true ∧ (isDroneNode v = true ∨ v = Node.tower)
      then 1 else 0) + wirelessEdgeCount (v :: rest)
| _ => 0

/-! ## The per-tick simulation update (`update_simulation`) -/

/-- `path_info` dictionary attached to a successful delivery alert. -/
structure PathInfo : Type where
  path : List Node
  hops : ℕ
  capacity : ℚ
deriving DecidableEq, Repr

/-- A report appended to `station.received_reports`. -/
structure Report : Type where
  time : ℕ
  drone_id : ℕ
  user_id : ℕ
  group_size : ℕ
  location : Pos
  path : List Node
  hops : ℕ
  capacity : ℚ
deriving DecidableEq, Repr

/-- An entry of `operator.notifications`: either a victim-detected alert
(`alert_victim_detected`, with optional path info) or a cluster-formed
alert (`alert_cluster_formed`). -/
inductive Notif : Type
| victim (time : ℕ) (drone_id : ℕ) (user_id : ℕ) (group_size : ℕ)
    (path_info : Option PathInfo)
| cluster (time : ℕ) (cluster_id : ℕ) (total_people : ℕ)
deriving DecidableEq, Repr

/-- The full engine state threaded by the driver: entities plus the
station report log, the operator notification log, the cluster registry
(`clusters_formed` dict as an association list), the `next_cluster_id`
counter and the current time. -/
structure SimState : Type where
  drones : List Drone
  users : List User
  reports : List Report
  notifications : List Notif
  clusters_formed : List (List ℕ × ℕ)
  next_cluster_id : ℕ
  time : ℕ

/-- `Drone.scan_for_victims(users)`: marks each not-yet-detected user
within `SEARCH_RADIUS` (planar distance) as detected by this drone;
returns the updated user list and the newly detected users in order. -/
def scan_for_victims (d : Drone) : List User → List User × List User
| [] => ([], [])
| u :: us =>
  let r := scan_for_victims d us
  if ¬ u.detected ∧ sq2 d.pos u.pos ≤ SEARCH_RADIUS^2 then
    (({ u with detected := true, detected_by := some d.id } : User) :: r.1,
     ({ u with detected := true, detected_by := some d.id } : User) :: r.2)
  else (u :: r.1, r.2)

/-- The per-detection reporting loop of phase 2 of `update_simulation`:
for each newly detected user compute `find_path_to_station`; on a path
with positive effective capacity append a report and a full alert, else
only a degraded alert (`path_info = None`). -/
def reportDetections (G : NetGraph) (time did : ℕ) :
    List User → List Report × List Notif
| [] => ([], [])
| u :: us =>
  let r := reportDetections G time did us
  match find_path_to_station G did with
  | (some p, some h, c) =>
    if p ≠ [] ∧ 0 < c then
      (({ time := time, drone_id := did, user_id := u.id,
          group_size := u.group_size, location := u.pos,
          path := p, hops := h, capacity := c } : Report) :: r.1,
       Notif.victim time did u.id u.group_size (some ⟨p, h, c⟩) :: r.2)
    else (r.1, Notif.victim time did u.id u.group_size none :: r.2)
  | _ => (r.1, Notif.victim time did u.id u.group_size none :: r.2)

/-- Phase 2 of `update_simulation`: every alive drone in SEARCH or RESCUE
mode scans for victims (sequentially, so later drones see earlier
detections) and immediately attempts delivery for each new detection. -/
def scanPhase (G : NetGraph) (time : ℕ) :
    List Drone → List User → List Drone × List User × List Report × List Notif
| [], us => ([], us, [], [])
| d :: ds', us =>
  if d.alive = true ∧ (d.mode = Mode.SEARCH ∨ d.mode = Mode.RESCUE) then
    let sc := scan_for_victims d us
    let dd := ({ d with detected_victims :=
        d.detected_victims ++ sc.2.map (fun u => u.id) } : Drone)
    let rn := reportDetections G time d.id sc.2
    let rest := scanPhase G time ds' sc.1
    (dd :: rest.1, rest.2.1, rn.1 ++ rest.2.2.1, rn.2 ++ rest.2.2.2)
  else
    let rest := scanPhase G time ds' us
    (d :: rest.1, rest.2.1, rest.2.2.1, rest.2.2.2)

/-- The inner absorption loop of `detect_user_clusters`: gather every
unvisited user strictly within 100 m (planar) of `u`. -/
def absorbNear (u : User) : List User → List ℕ → List User × List ℕ
| [], vis => ([], vis)
| u2 :: us, vis =>
  if u2.id ∈ vis then absorbNear u us vis
  else if sq2 u.pos u2.pos < 100^2 then
    let r := absorbNear u us (u2.id :: vis)
    (u2 :: r.1, r.2)
  else absorbNear u us vis

/-- Sum of group sizes. -/
def totalPeople (c : List User) : ℕ := (c.map (fun u => u.group_size)).sum

/-- `detect_user_clusters(users)`: outer loop with the shared `visited`
set; a seed user needs `group_size ≥ CLUSTER_FORMATION_THRESHOLD`, and a
gathered cluster is kept when its summed group size meets the
threshold (the inner loop always runs over the full user list). -/
def detectClustersAux (all : List User) : List User → List ℕ → List (List User)
| [], _ => []
| u :: us, vis =>
  if u.id ∈ vis ∨ u.group_size < CLUSTER_FORMATION_THRESHOLD then
    detectClustersAux all us vis
  else
    let r := absorbNear u all (u.id :: vis)
    if CLUSTER_FORMATION_THRESHOLD ≤ totalPeople (u :: r.1) then
      (u :: r.1) :: detectClustersAux all us r.2
    else detectClustersAux all us r.2

def detect_user_clusters (users : List User) : List (List User) :=
  detectClustersAux users users []

/-- Arithmetic mean of a list of positions (`np.mean(..., axis=0)`). -/
def meanPos (ps : List Pos) : Pos :=
  ((ps.map (fun p => p.1)).sum / ps.length,
   (ps.map (fun p => p.2.1)).sum / ps.length,
   (ps.map (fun p => p.2.2)).sum / ps.length)

/-- The sorted tuple of member ids used as the cluster-registry key. -/
def clusterKey (c : List User) : List ℕ :=
  List.insertionSort (· ≤ ·) (c.map (fun u => u.id))

/-- Apply the formation assignment of `form_drone_cluster` to one drone:
selected drones (by id) get the formation target, CLUSTER mode and the
cluster id. -/
def applyFormation (cid : ℕ) (targeted : List (ℕ × Pos)) (d : Drone) : Drone :=
  match targeted.find? (fun e => e.1 == d.id) with
  | some e =>
      { d with
        target := some e.2
        mode := Mode.CLUSTER
        cluster_id := some cid }
  | none => d

/-- `form_drone_cluster(drones, cluster_center, cluster_id)`: if fewer
than `MIN_CLUSTER_SIZE` alive SEARCH drones exist, change nothing and
return no selection; otherwise retarget the `MIN_CLUSTER_SIZE` closest
available drones (stable sort by planar distance to the centre) into the
formation (offsets parameterised by `foff`, standing for the
`cos`/`sin`-based triangular offsets) and switch them to CLUSTER mode. -/
def form_drone_cluster (ds : List Drone) (center : Pos) (cid : ℕ)
    (foff : ℕ → ℚ × ℚ) : List Drone × List ℕ :=
  let available := ds.filter (fun d => d.alive && decide (d.mode = Mode.SEARCH))
  if available.length < MIN_CLUSTER_SIZE then (ds, [])
  else
    let sorted := List.insertionSort
      (fun a b => sq2 a.pos center ≤ sq2 b.pos center) available
    let selected := sorted.take MIN_CLUSTER_SIZE
    let targeted : List (ℕ × Pos) :=
      ((List.range selected.length).zip selected).map
        (fun e => (e.2.id,
          (center.1 + (foff e.1).1, center.2.1 + (foff e.1).2, center.2.2)))
    (ds.map (applyFormation cid targeted), selected.map (fun d => d.id))

/-- One iteration of phase 3 of `update_simulation` for a detected user
cluster: skip clusters whose key is already registered; otherwise try to
form a drone cluster, and only on success register the key, emit the
alert and advance the id counter. -/
def clusterStep (foff : ℕ → ℚ × ℚ) (time : ℕ)
    (st : List Drone × List (List ℕ × ℕ) × ℕ × List Notif)
    (cluster : List User) :
    List Drone × List (List ℕ × ℕ) × ℕ × List Notif :=
  if clusterKey cluster ∈ st.2.1.map Prod.fst then st
  else
    let fr := form_drone_cluster st.1 (meanPos (cluster.map (fun u => u.pos)))
      st.2.2.1 foff
    if fr.2 = [] then (fr.1, st.2.1, st.2.2.1, st.2.2.2)
    else (fr.1, st.2.1 ++ [(clusterKey cluster, st.2.2.1)], st.2.2.1 + 1,
      st.2.2.2 ++ [Notif.cluster time st.2.2.1 (totalPeople cluster)])

/-- Phase 3 of `update_simulation`. -/
def clusterPhase (foff : ℕ → ℚ × ℚ) (time : ℕ) (ds : List Drone)
    (users : List User) (registry : List (List ℕ × ℕ)) (nextId : ℕ) :
    List Drone × List (List ℕ × ℕ) × ℕ × List Notif :=
  (detect_user_clusters users).foldl (clusterStep foff time)
    (ds, registry, nextId, [])

/-- First user of minimal planar distance to the drone (`min(...)` keeps
the earliest minimum). -/
def nearestUser (d : Drone) : List User → Option User
| [] => none
| u :: us =>
  match nearestUser d us with
  | none => some u
  | some v => if sq2 d.pos u.pos ≤ sq2 d.pos v.pos then some u else some v

/-- Phase 4 of `update_simulation`: every alive SEARCH drone heads for the
nearest undetected victim (at `DRONE_ALTITUDE`), or hovers in place when
none remain. -/
def targetPhase (users : List User) (ds : List Drone) : List Drone :=
  ds.map (fun d =>
    if d.alive = true ∧ d.mode = Mode.SEARCH then
      match nearestUser d (users.filter (fun u => !u.detected)) with
      | some u => { d with target := some (u.pos.1, u.pos.2.1, DRONE_ALTITUDE) }
      | none => { d with target := some d.pos }
    else d)

/-- Whether a drone serves a given user in phase 5: alive, within
`COVERAGE_RADIUS` (planar), and with a positive-capacity path to the
tower. -/
def qualifies (G : NetGraph) (u : User) (d : Drone) : Bool :=
  d.alive && decide (sq2 d.pos u.pos ≤ COVERAGE_RADIUS^2) &&
    (match find_best_path_to_tower G d.id with
     | (some p, _, cap) => !p.isEmpty && decide (0 < cap)
     | _ => false)

/-- Phase 5 of `update_simulation` for one user: clear the coverage
fields, then serve from the first qualifying drone in list order. -/
def serve (G : NetGraph) (ds : List Drone) (u : User) : User :=
  let u0 : User :=
    { u with
      served := false
      throughput := 0
      connected_drone := none
      hops_to_tower := none }
  match ds.find? (qualifies G u) with
  | none => u0
  | some d =>
    match find_best_path_to_tower G d.id with
    | (some _, some h, cap) =>
      { u0 with
        served := true
        throughput := cap
        connected_drone := some d.id
        hops_to_tower := some h }
    | _ => u0

def coveragePhase (G : NetGraph) (ds : List Drone) (users : List User) :
    List User := users.map (serve G ds)

/-- The movement function: given the drone's position and its target,
produce the new position.  `Drone.move` normalises the 2D direction
vector (an irrational operation on rational inputs), so the tick is
parameterised over it; every property proved below holds for every
movement behaviour, in particular the concrete one. -/
abbrev MoveFn : Type := Pos → Pos → Pos

def moveDrone (mv : MoveFn) (d : Drone) : Drone :=
  match d.target with
  | none => d
  | some t => { d with pos := mv d.pos t }

/-- The battery drain per tick (`Drone.drain`): RELAY/CLUSTER rate in
those modes, else moving rate when a target more than 1 m away (3D norm)
exists, else idle rate. -/
def drainAmount (d : Drone) : ℚ :=
  if d.mode = Mode.RELAY ∨ d.mode = Mode.CLUSTER then BATTERY_DRAIN_RELAY * DT
  else
    match d.target with
    | some t => if 1 < sq3 t d.pos then BATTERY_DRAIN_MOVING * DT
        else BATTERY_DRAIN_IDLE * DT
    | none => BATTERY_DRAIN_IDLE * DT

/-- `Drone.drain`: subtract the drain and clamp at zero, irrevocably
killing the drone when the battery is exhausted. -/
def drain (d : Drone) : Drone :=
  if d.battery - drainAmount d ≤ 0 then
    { d with battery := 0, alive := false }
  else { d with battery := d.battery - drainAmount d }

/-- Phase 6 of `update_simulation`: alive drones move and drain. -/
def movePhase (mv : MoveFn) (ds : List Drone) : List Drone :=
  ds.map (fun d => if d.alive = true then drain (moveDrone mv d) else d)

/-- `update_simulation(drones, users, tower, station, current_time,
clusters_formed, next_cluster_id, operator)`, with the driver's follow-up
`current_time += DT` folded in as `time + 1`. -/
def update_simulation (mv : MoveFn) (foff : ℕ → ℚ × ℚ) (s : SimState) :
    SimState :=
  let G := build_network_graph s.drones
  let sc := scanPhase G s.time s.drones s.users
  let cl := clusterPhase foff s.time sc.1 sc.2.1 s.clusters_formed
    s.next_cluster_id
  let ds4 := targetPhase sc.2.1 cl.1
  { drones := movePhase mv ds4,
    users := coveragePhase G ds4 sc.2.1,
    reports := s.reports ++ sc.2.2.1,
    notifications := s.notifications ++ sc.2.2.2 ++ cl.2.2.2,
    clusters_formed := cl.2.1,
    next_cluster_id := cl.2.2.1,
    time := s.time + 1 }

/-- The state produced by `initialize_drones`/`initialize_users` and the
driver's session initialisation (positions are arbitrary here: the
concrete ring placement uses `cos`/`sin`). -/
def InitState (s : SimState) : Prop :=
  (∀ d ∈ s.drones, d.battery = BATTERY_INIT ∧ d.alive = true ∧
      d.target = none ∧ d.mode = Mode.SEARCH ∧ d.cluster_id = none ∧
      d.detected_victims = []) ∧
  (∀ u ∈ s.users, u.served = false ∧ u.detected = false ∧
      u.detected_by = none ∧ u.throughput = 0 ∧ u.connected_drone = none ∧
      u.hops_to_tower = none ∧ 1 ≤ u.group_size) ∧
  s.reports = [] ∧ s.notifications = [] ∧ s.clusters_formed = [] ∧
  s.next_cluster_id = 0 ∧ s.time = 0 ∧
  List.Pairwise (· < ·) (s.drones.map (fun d => d.id)) ∧
  (s.users.map (fun u => u.id)).Nodup

/-- States reachable from initialization by whole ticks. -/
def Reachable (mv : MoveFn) (foff : ℕ → ℚ × ℚ) (s : SimState) : Prop :=
  ∃ (n : ℕ) (s₀ : SimState), InitState s₀ ∧
    s = (update_simulation mv foff)^[n] s₀

/-! ### Projections preserved by the individual phases -/

/-- Everything except `detected_victims` (untouched by phase 2). -/
def scanCore (d : Drone) : ℕ × Pos × ℚ × Bool × Option Pos × Mode × Option ℕ :=
  (d.id, d.pos, d.battery, d.alive, d.target, d.mode, d.cluster_id)

/-- Identity, position, battery, aliveness and the personal detection log
(untouched by phases 3 and 4). -/
def persCore (d : Drone) : ℕ × Pos × ℚ × Bool × List ℕ :=
  (d.id, d.pos, d.battery, d.alive, d.detected_victims)

/-- Identity, position, battery, aliveness. -/
def physCore (d : Drone) : ℕ × Pos × ℚ × Bool :=
  (d.id, d.pos, d.battery, d.alive)

/-- Immutable user attributes. -/
def baseCore (u : User) : ℕ × Pos × ℕ := (u.id, u.pos, u.group_size)

/-- User attributes untouched by the coverage phase. -/
def detCore (u : User) : ℕ × Pos × ℕ × Bool × Option ℕ :=
  (u.id, u.pos, u.group_size, u.detected, u.detected_by)

/-- Victim notifications for a given user id. -/
def isVictimNotifFor (uid : ℕ) : Notif → Bool
| Notif.victim _ _ u _ _ => u == uid
| _ => false

def victimNotifCount (uid : ℕ) (l : List Notif) : ℕ :=
  (l.filter (isVictimNotifFor uid)).length

def reportCount (uid : ℕ) (l : List Report) : ℕ :=
  (l.filter (fun r => r.user_id == uid)).length

/-- Whether a victim notification carries path info. -/
def notifHasPath : Notif → Bool
| Notif.victim _ _ _ _ (some _) => true
| _ => false

/-- The delivery-success condition of phase 2 (`if path and capacity > 0`). -/
def deliverySucceeds (G : NetGraph) (j : ℕ) : Prop :=
  ∃ p h c, find_path_to_station G j = (some p, some h, c) ∧ p ≠ [] ∧ 0 < c

/-- The combined move-and-drain step applied to each drone in phase 6. -/
def moveDrainStep (mv : MoveFn) (d : Drone) : Drone :=
  if d.alive = true then drain (moveDrone mv d) else d

/-- The per-drone battery/alive invariant of the data model. -/
def BatteryInv (d : Drone) : Prop :=
  0 ≤ d.battery ∧ d.battery ≤ BATTERY_INIT ∧ (d.battery = 0 ↔ d.alive = false)

/-- A trivially initialized empty deployment, used to instantiate the
reachability hypotheses of the claims. -/
def s0 : SimState :=
  { drones := [], users := [], reports := [], notifications := [],
    clusters_formed := [], next_cluster_id := 0, time := 0 }

/-- The movement function and formation offsets used by witnesses. -/
def mv0 : MoveFn := fun p _ => p

def foff0 : ℕ → ℚ × ℚ := fun _ => (0, 0)

/-- Witness for C9: a single dead drone. -/
def deadDrone : Drone :=
  { id := 0, pos := (0, 0, 0), battery := 0, alive := false,
    target := none, mode := Mode.SEARCH, cluster_id := none,
    detected_victims := [] }

/-- Witness for C7: an already-registered singleton key is skipped. -/
def userW : User :=
  { id := 0, pos := (0, 0, 0), group_size := 1, served := false,
    detected := false, detected_by := none, throughput := 0,
    connected_drone := none, hops_to_tower := none }

/-! ### Detection reporting (C4) -/

/-- The path info phase 2 attaches for drone `j` (`some` exactly when the
delivery guard `if path and capacity > 0` holds). -/
def stationDelivery (G : NetGraph) (j : ℕ) : Option PathInfo :=
  match find_path_to_station G j with
  | (some p, some h, c) => if p ≠ [] ∧ 0 < c then some ⟨p, h, c⟩ else none
  | _ => none

/-- The report phase 2 appends for one new detection. -/
def mkReport (time did : ℕ) (pi : PathInfo) (u : User) : Report :=
  { time := time, drone_id := did, user_id := u.id,
    group_size := u.group_size, location := u.pos,
    path := pi.path, hops := pi.hops, capacity := pi.capacity }

/-- The block of reports phase 2 appends for one drone's new detections:
one per detection on delivery success, none on failure. -/
def deliveryReports (G : NetGraph) (time did : ℕ) (dets : List User) :
    List Report :=
  match stationDelivery G did with
  | some pi => dets.map (mkReport time did pi)
  | none => []

/-- The concrete user of the C4 witness. -/
def uC4 : User :=
  { id := 3, pos := (1, 2, 0), group_size := 4, served := false,
    detected := false, detected_by := none, throughput := 0,
    connected_drone := none, hops_to_tower := none }

/-! ### Coverage and movement ordering (C5) -/

/-- The users after phase 2 of a tick. -/
def scannedUsers (s : SimState) : List User :=
  (scanPhase (build_network_graph s.drones) s.time s.drones s.users).2.1

/-- The drones entering phase 5 (coverage) and phase 6 (movement). -/
def phase4Drones (foff : ℕ → ℚ × ℚ) (s : SimState) : List Drone :=
  targetPhase (scannedUsers s)
    (clusterPhase foff s.time
      (scanPhase (build_network_graph s.drones) s.time s.drones s.users).1
      (scannedUsers s) s.clusters_formed s.next_cluster_id).1

/-- The drone of the C5 counterexample: a relay hovering 120 m (planar)
from the victim, heading away from it. -/
def d5 : Drone :=
  { id := 0, pos := (250, 130, 80), battery := 15000, alive := true,
    target := some (250, 140, 80), mode := Mode.RELAY, cluster_id := none,
    detected_victims := [] }

/-- The victim of the C5 counterexample, already detected. -/
def u5 : User :=
  { id := 0, pos := (250, 10, 0), group_size := 1, served := false,
    detected := true, detected_by := some 0, throughput := 0,
    connected_drone := none, hops_to_tower := none }

/-- The C5 counterexample state. -/
def s5 : SimState :=
  { drones := [d5], users := [u5], reports := [], notifications := [],
    clusters_formed := [], next_cluster_id := 0, time := 0 }

/-- `Drone.move` evaluated exactly on targets aligned with the position in
the x and z coordinates (the planar direction is then `(0, ±1)`, so
`direction/dist * step` is `(0, ±min(DRONE_SPEED*DT, dist))`, rational);
the identity elsewhere.  On `d5`'s position and target it agrees with the
source's movement. -/
def mvC5 : MoveFn := fun p t =>
  if p.1 = t.1 ∧ p.2.2 = t.2.2 then
    if (t.2.1 - p.2.1)^2 < (1/100)^2 then p
    else if t.2.1 - p.2.1 < 0 then
      (p.1, p.2.1 - min (DRONE_SPEED * DT) (p.2.1 - t.2.1), p.2.2)
    else (p.1, p.2.1 + min (DRONE_SPEED * DT) (t.2.1 - p.2.1), p.2.2)
  else p

/-! ## Theorems -/

/-- On nonnegative distances the two forms of the capacity formula agree. -/
theorem calculate_link_capacity_eq_capOfSq (d : ℚ) (los : Bool) (hd : 0 ≤ d) :
    calculate_link_capacity d los = capOfSq (d^2) los := by
  unfold calculate_link_capacity capOfSq
  have hrange : (0:ℚ) < MAX_5G_RANGE := by norm_num [MAX_5G_RANGE]
  have hiff : MAX_5G_RANGE < d ↔ MAX_5G_RANGE^2 < d^2 := by
    constructor
    · intro h
      exact pow_lt_pow_left₀ h (le_of_lt hrange) (by norm_num)
    · intro h
      by_contra hle
      push_neg at hle
      exact absurd (pow_le_pow_left₀ hd hle 2) (not_le_of_lt h)
  have hdiv : (d / MAX_5G_RANGE)^2 = d^2 / MAX_5G_RANGE^2 := by
    rw [div_pow]
  rw [hdiv]
  by_cases h : MAX_5G_RANGE < d
  · rw [if_pos h, if_pos (hiff.mp h)]
  · rw [if_neg h, if_neg (fun hc => h (hiff.mpr hc))]

/-! ### Basic facts about weights and walks -/

theorem wt_nonneg (G : NetGraph) (p : List Node) : 0 ≤ wt G p := by
  induction p with
  | nil => simp [wt]
  | cons u rest ih =>
    cases rest with
    | nil => simp [wt]
    | cons v rest' =>
      have h1 : (0:ℚ) ≤ 1 / max (G.cap u v) 1 := by
        apply div_nonneg (by norm_num)
        exact le_trans (by norm_num) (le_max_right _ _)
      simpa [wt] using add_nonneg h1 ih

theorem wt_cons (G : NetGraph) (u v : Node) (q : List Node)
    (h : q.head? = some v) :
    wt G (u :: q) = 1 / max (G.cap u v) 1 + wt G q := by
  cases q with
  | nil => simp at h
  | cons w rest => simp at h; subst h; simp [wt]

theorem getLast?_cons_ne_nil {α : Type} (x : α) (l : List α) (h : l ≠ []) :
    (x :: l).getLast? = l.getLast? := by
  cases l with
  | nil => exact absurd rfl h
  | cons y ys => exact List.getLast?_cons_cons

theorem wt_split (G : NetGraph) (l₁ l₂ : List Node) (x : Node) :
    wt G (l₁ ++ x :: l₂) = wt G (l₁ ++ [x]) + wt G (x :: l₂) := by
  induction l₁ with
  | nil => simp [wt]
  | cons a l₁ ih =>
    cases l₁ with
    | nil => simp [wt]
    | cons b l₁' =>
      have h1 : wt G ((a :: b :: l₁') ++ x :: l₂)
          = 1 / max (G.cap a b) 1 + wt G ((b :: l₁') ++ x :: l₂) := by
        simp [wt]
      have h2 : wt G ((a :: b :: l₁') ++ [x])
          = 1 / max (G.cap a b) 1 + wt G ((b :: l₁') ++ [x]) := by
        simp [wt]
      rw [h1, h2, ih]
      ring

theorem walkB_tail (G : NetGraph) (a : Node) (rest : List Node)
    (h : walkB G (a :: rest) = true) (hne : rest ≠ []) : walkB G rest = true := by
  cases rest with
  | nil => exact absurd rfl hne
  | cons b t => simp [walkB] at h; exact h.2

theorem walkB_cons (G : NetGraph) (u v : Node) (q : List Node)
    (hq : walkB G q = true) (hh : q.head? = some v) (ha : adjB G u v = true) :
    walkB G (u :: q) = true := by
  cases q with
  | nil => simp at hh
  | cons w rest => simp at hh; subst hh; simp [walkB, ha, hq]

theorem walkB_head_adj (G : NetGraph) (u v : Node) (rest : List Node)
    (h : walkB G (u :: v :: rest) = true) : adjB G u v = true := by
  simp [walkB] at h; exact h.1

theorem walkB_of_suffix (G : NetGraph) (l₁ l₂ : List Node)
    (h : walkB G (l₁ ++ l₂) = true) (hne : l₂ ≠ []) : walkB G l₂ = true := by
  induction l₁ with
  | nil => simpa using h
  | cons a l₁ ih =>
    apply ih
    apply walkB_tail G a _ h
    intro hc
    exact hne (List.append_eq_nil.mp hc).2

theorem fromFirst_length_le (x : Node) (xs : List Node) :
    (fromFirst x xs).length ≤ xs.length := by
  induction xs with
  | nil => simp [fromFirst]
  | cons y ys ih =>
    by_cases h : y = x
    · simp [fromFirst, h]
    · simp only [fromFirst, if_neg h]
      exact le_trans ih (by simp)

theorem fromFirst_head? (x : Node) (xs : List Node) (hx : x ∈ xs) :
    (fromFirst x xs).head? = some x := by
  induction xs with
  | nil => simp at hx
  | cons y ys ih =>
    by_cases h : y = x
    · simp [fromFirst, h]
    · have : x ∈ ys := by
        rcases List.mem_cons.mp hx with h' | h'
        · exact absurd h'.symm h
        · exact h'
      simp only [fromFirst, if_neg h]
      exact ih this

theorem fromFirst_decomp (x : Node) (xs : List Node) (hx : x ∈ xs) :
    ∃ pre, xs = pre ++ fromFirst x xs := by
  induction xs with
  | nil => simp at hx
  | cons y ys ih =>
    by_cases h : y = x
    · exact ⟨[], by simp [fromFirst, h]⟩
    · have : x ∈ ys := by
        rcases List.mem_cons.mp hx with h' | h'
        · exact absurd h'.symm h
        · exact h'
      obtain ⟨pre, hpre⟩ := ih this
      exact ⟨y :: pre, by simp [fromFirst, if_neg h]; exact hpre⟩

theorem fromFirst_subset (x : Node) (xs : List Node) : fromFirst x xs ⊆ xs := by
  induction xs with
  | nil => simp [fromFirst]
  | cons y ys ih =>
    by_cases h : y = x
    · simp [fromFirst, h]
    · simp only [fromFirst, if_neg h]
      exact fun a ha => List.mem_cons_of_mem _ (ih ha)

theorem fromFirst_getLast? (x : Node) (xs : List Node) (hx : x ∈ xs) :
    (fromFirst x xs).getLast? = xs.getLast? := by
  induction xs with
  | nil => simp at hx
  | cons y ys ih =>
    by_cases h : y = x
    · simp [fromFirst, h]
    · have hmem : x ∈ ys := by
        rcases List.mem_cons.mp hx with h' | h'
        · exact absurd h'.symm h
        · exact h'
      have hne : ys ≠ [] := List.ne_nil_of_mem hmem
      simp only [fromFirst, if_neg h]
      rw [ih hmem]
      exact (getLast?_cons_ne_nil y ys hne).symm

theorem shortcut_nil : shortcut [] = [] := by
  simp only [shortcut]

theorem shortcut_subset (l : List Node) : shortcut l ⊆ l := by
  induction l using shortcut.induct with
  | case1 => simp [shortcut]
  | case2 x xs hx ih =>
    rw [shortcut, if_pos hx]
    exact fun a ha => List.mem_cons_of_mem _ (fromFirst_subset x xs (ih ha))
  | case3 x xs hx ih =>
    rw [shortcut, if_neg hx]
    intro a ha
    rcases List.mem_cons.mp ha with h | h
    · simp [h]
    · exact List.mem_cons_of_mem _ (ih h)

theorem shortcut_nodup (l : List Node) : (shortcut l).Nodup := by
  induction l using shortcut.induct with
  | case1 => simp [shortcut]
  | case2 x xs hx ih => rw [shortcut, if_pos hx]; exact ih
  | case3 x xs hx ih =>
    rw [shortcut, if_neg hx]
    exact List.nodup_cons.mpr ⟨fun hc => hx (shortcut_subset xs hc), ih⟩

theorem shortcut_head? (l : List Node) : (shortcut l).head? = l.head? := by
  induction l using shortcut.induct with
  | case1 => simp [shortcut]
  | case2 x xs hx ih =>
    rw [shortcut, if_pos hx]
    rw [ih, fromFirst_head? x xs hx]
    simp
  | case3 x xs hx ih => rw [shortcut, if_neg hx]; simp

theorem shortcut_ne_nil (l : List Node) (h : l ≠ []) : shortcut l ≠ [] := by
  intro hc
  have := shortcut_head? l
  rw [hc] at this
  cases l with
  | nil => exact h rfl
  | cons a as => simp at this

theorem shortcut_getLast? (l : List Node) : (shortcut l).getLast? = l.getLast? := by
  induction l using shortcut.induct with
  | case1 => simp [shortcut]
  | case2 x xs hx ih =>
    rw [shortcut, if_pos hx, ih, fromFirst_getLast? x xs hx]
    exact (getLast?_cons_ne_nil x xs (List.ne_nil_of_mem hx)).symm
  | case3 x xs hx ih =>
    rw [shortcut, if_neg hx]
    cases hxs : xs with
    | nil => rw [shortcut_nil]
    | cons y ys =>
      subst hxs
      have hne : shortcut (y :: ys) ≠ [] := shortcut_ne_nil _ (by simp)
      rw [getLast?_cons_ne_nil x _ hne, ih,
        getLast?_cons_ne_nil x (y :: ys) (by simp)]

theorem shortcut_walk (G : NetGraph) (l : List Node)
    (h : walkB G l = true) : walkB G (shortcut l) = true := by
  induction l using shortcut.induct with
  | case1 => simpa [shortcut] using h
  | case2 x xs hx ih =>
    rw [shortcut, if_pos hx]
    apply ih
    obtain ⟨pre, hpre⟩ := fromFirst_decomp x xs hx
    have hhead := fromFirst_head? x xs hx
    generalize hq : fromFirst x xs = q at hpre hhead ⊢
    rw [hpre] at h
    have h' : walkB G ((x :: pre) ++ q) = true := by simpa using h
    apply walkB_of_suffix G (x :: pre) q h'
    intro hc
    rw [hc] at hhead
    simp at hhead
  | case3 x xs hx ih =>
    rw [shortcut, if_neg hx]
    cases hxs : xs with
    | nil => rw [shortcut_nil]; simp [walkB]
    | cons y ys =>
      subst hxs
      have hadj : adjB G x y = true := walkB_head_adj G x y ys h
      have hw : walkB G (y :: ys) = true := walkB_tail G x _ h (by simp)
      apply walkB_cons G x y _ (ih hw) _ hadj
      rw [shortcut_head?]
      simp

theorem shortcut_wt_le (G : NetGraph) (l : List Node) :
    wt G (shortcut l) ≤ wt G l := by
  induction l using shortcut.induct with
  | case1 => simp [shortcut]
  | case2 x xs hx ih =>
    rw [shortcut, if_pos hx]
    refine le_trans ih ?_
    obtain ⟨pre, hpre⟩ := fromFirst_decomp x xs hx
    have hh := fromFirst_head? x xs hx
    cases hff : fromFirst x xs with
    | nil => rw [hff] at hh; simp at hh
    | cons z zs =>
      rw [hff] at hh hpre
      simp at hh
      rw [hh]
      have hdecomp : x :: xs = (x :: pre) ++ x :: zs := by
        rw [List.cons_append]
        congr 1
        rw [hpre, hh]
      calc wt G (x :: zs) ≤ wt G ((x :: pre) ++ [x]) + wt G (x :: zs) :=
            le_add_of_nonneg_left (wt_nonneg G _)
        _ = wt G (x :: xs) := by rw [hdecomp, wt_split G (x :: pre) zs x]
  | case3 x xs hx ih =>
    rw [shortcut, if_neg hx]
    cases hxs : xs with
    | nil => rw [shortcut_nil]
    | cons y ys =>
      subst hxs
      have h1 : (shortcut (y :: ys)).head? = some y := by
        rw [shortcut_head?]; simp
      rw [wt_cons G x y _ h1, wt_cons G x y (y :: ys) rfl]
      exact add_le_add_left ih _

/-! ### The minimal-weight selection -/

theorem pickMinBy_eq_none_iff (w : List Node → ℚ) (l : List (List Node)) :
    pickMinBy w l = none ↔ l = [] := by
  cases l with
  | nil => simp [pickMinBy]
  | cons p ps =>
    cases hps : pickMinBy w ps with
    | none => simp [pickMinBy, hps]
    | some q =>
      simp only [pickMinBy, hps]
      split <;> simp

theorem pickMinBy_mem (w : List Node → ℚ) (l : List (List Node)) (p : List Node)
    (h : pickMinBy w l = some p) : p ∈ l := by
  induction l with
  | nil => simp [pickMinBy] at h
  | cons a ps ih =>
    cases hps : pickMinBy w ps with
    | none =>
      simp only [pickMinBy, hps, Option.some.injEq] at h
      simp [← h]
    | some r =>
      simp only [pickMinBy, hps] at h
      split at h
      · simp only [Option.some.injEq] at h
        simp [← h]
      · simp only [Option.some.injEq] at h
        cases h
        exact List.mem_cons_of_mem _ (ih hps)

theorem pickMinBy_le (w : List Node → ℚ) (l : List (List Node)) :
    ∀ p, pickMinBy w l = some p → ∀ q ∈ l, w p ≤ w q := by
  induction l with
  | nil => intro p h; simp [pickMinBy] at h
  | cons a ps ih =>
    intro p h
    cases hps : pickMinBy w ps with
    | none =>
      simp only [pickMinBy, hps, Option.some.injEq] at h
      have hnil : ps = [] := (pickMinBy_eq_none_iff w ps).mp hps
      subst hnil
      intro q hq
      simp at hq
      subst hq
      rw [h]
    | some r =>
      simp only [pickMinBy, hps] at h
      intro q hq
      rcases List.mem_cons.mp hq with hqa | hqps
      · subst hqa
        split at h
        · simp only [Option.some.injEq] at h
          rw [← h]
        · next hlt =>
          simp only [Option.some.injEq] at h
          rw [← h]
          exact le_of_not_le hlt
      · split at h
        · next hle =>
          simp only [Option.some.injEq] at h
          rw [← h]
          exact le_trans hle (ih r hps q hqps)
        · simp only [Option.some.injEq] at h
          rw [← h]
          exact ih r hps q hqps

/-! ### Soundness and completeness of the path enumeration -/

theorem extPaths_sound (G : NetGraph) (t : Node) :
    ∀ fuel (u : Node) (vis : List Node) (p : List Node),
      p ∈ extPaths G t fuel u vis →
      walkB G p = true ∧ p.head? = some u ∧ p.getLast? = some t := by
  intro fuel
  induction fuel with
  | zero => intro u vis p hp; simp [extPaths] at hp
  | succ fuel ih =>
    intro u vis p hp
    rw [extPaths] at hp
    by_cases hu : u = t
    · subst hu
      rw [if_pos rfl] at hp
      simp at hp
      subst hp
      exact ⟨by simp [walkB], rfl, rfl⟩
    · rw [if_neg hu] at hp
      rw [List.mem_flatMap] at hp
      obtain ⟨v, hv, hpv⟩ := hp
      rw [List.mem_map] at hpv
      obtain ⟨q, hq, rfl⟩ := hpv
      rw [List.mem_filter] at hv
      have hadj : adjB G u v = true := by
        have := hv.2
        simp only [Bool.and_eq_true] at this
        exact this.1
      obtain ⟨hwq, hqh, hql⟩ := ih v (u :: vis) q hq
      have hqne : q ≠ [] := by
        intro hc; rw [hc] at hqh; simp at hqh
      refine ⟨walkB_cons G u v q hwq hqh hadj, rfl, ?_⟩
      rw [getLast?_cons_ne_nil u q hqne]
      exact hql

theorem nodup_length_le_FUEL (G : NetGraph) (p : List Node)
    (hnd : p.Nodup) (hsub : ∀ x ∈ p.tail, x ∈ nodesOf G) :
    p.length ≤ FUEL G := by
  cases p with
  | nil => simp [FUEL]
  | cons a rest =>
    have hrest : rest.length ≤ (nodesOf G).length := by
      have h1 : rest.toFinset.card = rest.length :=
        List.toFinset_card_of_nodup (List.Nodup.of_cons hnd)
      have h2 : rest.toFinset ⊆ (nodesOf G).toFinset := by
        intro x hx
        rw [List.mem_toFinset] at *
        exact hsub x (by simpa using hx)
      calc rest.length = rest.toFinset.card := h1.symm
        _ ≤ (nodesOf G).toFinset.card := Finset.card_le_card h2
        _ ≤ (nodesOf G).length := List.toFinset_card_le _
    simp only [List.length_cons, FUEL]
    omega

theorem extPaths_complete (G : NetGraph) (t : Node) :
    ∀ fuel (vis : List Node) (p : List Node) (u : Node),
      walkB G p = true → p.head? = some u → p.getLast? = some t →
      p.Nodup → (∀ x ∈ p.tail, x ∈ nodesOf G) → (∀ x ∈ p, x ∉ vis) →
      p.length ≤ fuel → p ∈ extPaths G t fuel u vis := by
  intro fuel
  induction fuel with
  | zero =>
    intro vis p u _ hh _ _ _ _ hlen
    cases p with
    | nil => simp at hh
    | cons a rest => simp at hlen
  | succ fuel ih =>
    intro vis p u hw hh hl hnd hsub hvis hlen
    rw [extPaths]
    cases p with
    | nil => simp at hh
    | cons a rest =>
      simp at hh
      subst hh
      by_cases hu : a = t
      · subst hu
        rw [if_pos rfl]
        cases rest with
        | nil => simp at hl; simp [hl]
        | cons b rest' =>
          exfalso
          rw [getLast?_cons_ne_nil a (b :: rest') (by simp)] at hl
          have : a ∈ b :: rest' := List.mem_of_mem_getLast? (hl ▸ rfl)
          exact (List.nodup_cons.mp hnd).1 this
      · rw [if_neg hu]
        cases rest with
        | nil =>
          exfalso
          simp at hl
          exact hu hl
        | cons v rest' =>
          rw [List.mem_flatMap]
          refine ⟨v, ?_, ?_⟩
          · rw [List.mem_filter]
            constructor
            · exact hsub v (by simp)
            · simp only [Bool.and_eq_true, decide_eq_true_eq]
              refine ⟨walkB_head_adj G a v rest' hw, ?_⟩
              intro hc
              rcases List.mem_cons.mp hc with h' | h'
              · exact (List.nodup_cons.mp hnd).1 (h' ▸ List.mem_cons_self v rest')
              · exact hvis v (by simp) h'
          · rw [List.mem_map]
            refine ⟨v :: rest', ?_, rfl⟩
            apply ih (a :: vis) (v :: rest') v
            · exact walkB_tail G a (v :: rest') hw (by simp)
            · rfl
            · rw [getLast?_cons_ne_nil a (v :: rest') (by simp)] at hl
              exact hl
            · exact List.Nodup.of_cons hnd
            · intro x hx
              exact hsub x (List.mem_cons_of_mem v hx)
            · intro x hx
              intro hc
              rcases List.mem_cons.mp hc with h' | h'
              · exact (List.nodup_cons.mp hnd).1 (h' ▸ hx)
              · exact hvis x (List.mem_cons_of_mem a hx) h'
            · simpa using hlen

/-! ### Walks and reachability -/

theorem walk_imp_reaches (G : NetGraph) (p : List Node) :
    ∀ (u t : Node), walkB G p = true → p.head? = some u →
      p.getLast? = some t → Reaches G u t := by
  induction p with
  | nil => intro u t _ hh _; simp at hh
  | cons a rest ih =>
    intro u t hw hh hl
    simp at hh
    subst hh
    cases rest with
    | nil =>
      simp at hl
      subst hl
      exact Reaches.refl _
    | cons b rest' =>
      rw [getLast?_cons_ne_nil a (b :: rest') (by simp)] at hl
      exact Reaches.step (walkB_head_adj G a b rest' hw)
        (ih b t (walkB_tail G a (b :: rest') hw (by simp)) rfl hl)

theorem reaches_imp_walk (G : NetGraph) (u t : Node) (h : Reaches G u t) :
    ∃ p, walkB G p = true ∧ p.head? = some u ∧ p.getLast? = some t := by
  induction h with
  | refl u => exact ⟨[u], by simp [walkB], rfl, rfl⟩
  | @step a v t' hadj _ ih =>
    obtain ⟨p, hw, hh, hl⟩ := ih
    refine ⟨a :: p, walkB_cons G a v p hw hh hadj, rfl, ?_⟩
    have hpne : p ≠ [] := by intro hc; rw [hc] at hh; simp at hh
    rw [getLast?_cons_ne_nil a p hpne]
    exact hl

theorem walk_tail_mem_has_in_edge (G : NetGraph) (p : List Node)
    (hw : walkB G p = true) : ∀ x ∈ p.tail, ∃ y, adjB G y x = true := by
  induction p with
  | nil => simp
  | cons a rest ih =>
    intro x hx
    simp at hx
    cases rest with
    | nil => simp at hx
    | cons b rest' =>
      rcases List.mem_cons.mp hx with h' | h'
      · subst h'
        exact ⟨a, walkB_head_adj G a x rest' hw⟩
      · exact ih (walkB_tail G a (b :: rest') hw (by simp)) x
          (by simpa using h')

/-! ### Structure of the built graph -/

theorem adjB_iff (G : NetGraph) (u v : Node) :
    adjB G u v = true ↔ 0 < G.cap u v := by
  simp [adjB]

theorem lookupAlive_mem_droneIds (ds : List Drone) (j : ℕ) (d : Drone)
    (h : lookupAlive ds j = some d) : j ∈ (build_network_graph ds).droneIds := by
  have hm := List.mem_of_find?_eq_some h
  have hp := List.find?_some h
  simp at hp
  show j ∈ (aliveDrones ds).map (fun d => d.id)
  rw [List.mem_map]
  exact ⟨d, hm, hp⟩

theorem station_mem_nodesOf (G : NetGraph) : Node.station ∈ nodesOf G := by
  simp [nodesOf]

theorem tower_mem_nodesOf (G : NetGraph) : Node.tower ∈ nodesOf G := by
  simp [nodesOf]

theorem buildCap_pos_right (ds : List Drone) (u v : Node)
    (h : 0 < buildCap ds u v) : v ∈ nodesOf (build_network_graph ds) := by
  cases v with
  | station => exact station_mem_nodesOf _
  | tower => exact tower_mem_nodesOf _
  | drone j =>
    cases u with
    | station => simp [buildCap] at h
    | tower => simp [buildCap] at h
    | drone i =>
      simp only [buildCap] at h
      by_cases hij : i = j
      · rw [if_pos hij] at h; norm_num at h
      · rw [if_neg hij] at h
        cases hi : lookupAlive ds i with
        | none => rw [hi] at h; norm_num at h
        | some d =>
          cases hj : lookupAlive ds j with
          | none => rw [hi, hj] at h; norm_num at h
          | some d2 =>
            have := lookupAlive_mem_droneIds ds j d2 hj
            simp [nodesOf]
            exact this

theorem buildCap_pos_left (ds : List Drone) (u v : Node)
    (h : 0 < buildCap ds u v) : u ∈ nodesOf (build_network_graph ds) := by
  cases u with
  | station => exact station_mem_nodesOf _
  | tower => exact tower_mem_nodesOf _
  | drone i =>
    cases v with
    | station => simp [buildCap] at h
    | drone j =>
      simp only [buildCap] at h
      by_cases hij : i = j
      · rw [if_pos hij] at h; norm_num at h
      · rw [if_neg hij] at h
        cases hi : lookupAlive ds i with
        | none => rw [hi] at h; simp at h
        | some d =>
          have := lookupAlive_mem_droneIds ds i d hi
          simp [nodesOf]
          exact this
    | tower =>
      simp only [buildCap] at h
      cases hi : lookupAlive ds i with
      | none => rw [hi] at h; norm_num at h
      | some d =>
        have := lookupAlive_mem_droneIds ds i d hi
        simp [nodesOf]
        exact this

/-- Every walk of a built graph, once cycles are removed, is found by the
simple-path enumeration. -/
theorem shortcut_mem_simplePaths (ds : List Drone) (u t : Node) (q : List Node)
    (hw : walkB (build_network_graph ds) q = true)
    (hh : q.head? = some u) (hl : q.getLast? = some t) :
    shortcut q ∈ simplePathsBetween (build_network_graph ds) u t := by
  apply extPaths_complete
  · exact shortcut_walk _ q hw
  · rw [shortcut_head?]; exact hh
  · rw [shortcut_getLast?]; exact hl
  · exact shortcut_nodup q
  · intro x hx
    have hxw : x ∈ (shortcut q).tail := hx
    obtain ⟨y, hy⟩ :=
      walk_tail_mem_has_in_edge _ (shortcut q) (shortcut_walk _ q hw) x hxw
    exact buildCap_pos_right ds y x ((adjB_iff _ y x).mp hy)
  · intro x _
    simp
  · exact nodup_length_le_FUEL _ (shortcut q) (shortcut_nodup q)
      (fun x hx => by
        obtain ⟨y, hy⟩ :=
          walk_tail_mem_has_in_edge _ (shortcut q) (shortcut_walk _ q hw) x hx
        exact buildCap_pos_right ds y x ((adjB_iff _ y x).mp hy))

theorem reaches_pickMin_some (ds : List Drone) (u t : Node)
    (hr : Reaches (build_network_graph ds) u t) :
    ∃ p, pickMinBy (wt (build_network_graph ds))
      (simplePathsBetween (build_network_graph ds) u t) = some p := by
  obtain ⟨q, hw, hh, hl⟩ := reaches_imp_walk _ u t hr
  have hmem := shortcut_mem_simplePaths ds u t q hw hh hl
  cases hpick : pickMinBy (wt (build_network_graph ds))
      (simplePathsBetween (build_network_graph ds) u t) with
  | none =>
    rw [pickMinBy_eq_none_iff] at hpick
    rw [hpick] at hmem
    simp at hmem
  | some p => exact ⟨p, rfl⟩

theorem pickMin_minimal_over_walks (ds : List Drone) (u t : Node) (p : List Node)
    (hpick : pickMinBy (wt (build_network_graph ds))
      (simplePathsBetween (build_network_graph ds) u t) = some p) :
    ∀ q, walkB (build_network_graph ds) q = true → q.head? = some u →
      q.getLast? = some t →
      wt (build_network_graph ds) p ≤ wt (build_network_graph ds) q := by
  intro q hw hh hl
  have hmem := shortcut_mem_simplePaths ds u t q hw hh hl
  calc wt (build_network_graph ds) p
      ≤ wt (build_network_graph ds) (shortcut q) :=
        pickMinBy_le _ _ p hpick (shortcut q) hmem
    _ ≤ wt (build_network_graph ds) q := shortcut_wt_le _ q

theorem pickMin_sound (G : NetGraph) (u t : Node) (p : List Node)
    (hpick : pickMinBy (wt G) (simplePathsBetween G u t) = some p) :
    walkB G p = true ∧ p.head? = some u ∧ p.getLast? = some t :=
  extPaths_sound G t (FUEL G) u [] p (pickMinBy_mem _ _ p hpick)

theorem not_reaches_pickMin_none (G : NetGraph) (u t : Node)
    (hnr : ¬ Reaches G u t) :
    pickMinBy (wt G) (simplePathsBetween G u t) = none := by
  cases hpick : pickMinBy (wt G) (simplePathsBetween G u t) with
  | none => rfl
  | some p =>
    obtain ⟨hw, hh, hl⟩ := pickMin_sound G u t p hpick
    exact absurd (walk_imp_reaches G p u t hw hh hl) hnr

theorem two_le_length_of_ends_ne (p : List Node) (u t : Node)
    (hh : p.head? = some u) (hl : p.getLast? = some t) (hne : u ≠ t) :
    2 ≤ p.length := by
  cases p with
  | nil => simp at hh
  | cons a rest =>
    cases rest with
    | nil =>
      simp at hh hl
      exact absurd (hh.symm.trans hl) hne
    | cons b rest' => simp

/-- **C2.** `find_best_path_to_tower` on a graph built by
`build_network_graph`, queried from an alive drone whose node is in the
graph: on success the returned path is a walk from the drone's node to the
tower of minimal total weight under the edge cost `1/max(capacity, 1)`
(minimality over *all* walks), the returned hop count is the number of
edges of the path, and the returned effective capacity is the minimum
single-edge capacity along the path times `RELAY_HOP_PENALTY ^ (hops - 1)`;
when the tower is unreachable the query returns `(none, none, 0)` (the
`NetworkXNoPath` exception is caught, so no error propagates), and when it
is reachable the query does succeed. -/
theorem C2_find_best_path_to_tower_correct (ds : List Drone) (i : ℕ) (d : Drone)
    (hd : lookupAlive ds i = some d) :
    (∀ p hops cap,
        find_best_path_to_tower (build_network_graph ds) i = (some p, some hops, cap) →
        walkB (build_network_graph ds) p = true ∧
        p.head? = some (Node.drone i) ∧
        p.getLast? = some Node.tower ∧
        (∀ q, walkB (build_network_graph ds) q = true →
            q.head? = some (Node.drone i) → q.getLast? = some Node.tower →
            wt (build_network_graph ds) p ≤ wt (build_network_graph ds) q) ∧
        hops = p.length - 1 ∧ 1 ≤ hops ∧
        cap = minCapOf (build_network_graph ds) p *
            RELAY_HOP_PENALTY ^ (hops - 1)) ∧
    (Reaches (build_network_graph ds) (Node.drone i) Node.tower →
        ∃ p hops cap, find_best_path_to_tower (build_network_graph ds) i
            = (some p, some hops, cap)) ∧
    (¬ Reaches (build_network_graph ds) (Node.drone i) Node.tower →
        find_best_path_to_tower (build_network_graph ds) i = (none, none, 0)) := by
  refine ⟨?_, ?_, ?_⟩
  · intro p hops cap heq
    rw [find_best_path_to_tower] at heq
    cases hpick : pickMinBy (wt (build_network_graph ds))
        (simplePathsBetween (build_network_graph ds) (Node.drone i) Node.tower) with
    | none => rw [hpick] at heq; simp at heq
    | some p' =>
      rw [hpick] at heq
      simp only [Prod.mk.injEq, Option.some.injEq] at heq
      obtain ⟨hp, hhops, hcap⟩ := heq
      rw [hp] at hpick hhops hcap
      obtain ⟨hw, hh, hl⟩ := pickMin_sound _ _ _ p hpick
      have hlen : 2 ≤ p.length :=
        two_le_length_of_ends_ne p _ _ hh hl (by simp)
      refine ⟨hw, hh, hl, pickMin_minimal_over_walks ds _ _ p hpick,
        hhops.symm, by omega, ?_⟩
      rw [← hcap, ← hhops]
      have he : p.length - 1 - 1 = p.length - 2 := by omega
      rw [he]
  · intro hr
    obtain ⟨p, hpick⟩ := reaches_pickMin_some ds _ _ hr
    refine ⟨p, p.length - 1,
      minCapOf (build_network_graph ds) p * RELAY_HOP_PENALTY ^ (p.length - 2), ?_⟩
    rw [find_best_path_to_tower, hpick]
  · intro hnr
    rw [find_best_path_to_tower, not_reaches_pickMin_none _ _ _ hnr]

/-- Witness for C2 at the concrete fleet `dsW`. -/
theorem C2_find_best_path_to_tower_correct_witness :
    lookupAlive dsW 0 = some droneW ∧
    ((∀ p hops cap,
        find_best_path_to_tower (build_network_graph dsW) 0 = (some p, some hops, cap) →
        walkB (build_network_graph dsW) p = true ∧
        p.head? = some (Node.drone 0) ∧
        p.getLast? = some Node.tower ∧
        (∀ q, walkB (build_network_graph dsW) q = true →
            q.head? = some (Node.drone 0) → q.getLast? = some Node.tower →
            wt (build_network_graph dsW) p ≤ wt (build_network_graph dsW) q) ∧
        hops = p.length - 1 ∧ 1 ≤ hops ∧
        cap = minCapOf (build_network_graph dsW) p *
            RELAY_HOP_PENALTY ^ (hops - 1)) ∧
    (Reaches (build_network_graph dsW) (Node.drone 0) Node.tower →
        ∃ p hops cap, find_best_path_to_tower (build_network_graph dsW) 0
            = (some p, some hops, cap)) ∧
    (¬ Reaches (build_network_graph dsW) (Node.drone 0) Node.tower →
        find_best_path_to_tower (build_network_graph dsW) 0 = (none, none, 0))) :=
  ⟨rfl, C2_find_best_path_to_tower_correct dsW 0 droneW rfl⟩

theorem cap_from_station (ds : List Drone) (v : Node)
    (h : 0 < buildCap ds Node.station v) : v = Node.tower := by
  cases v with
  | tower => rfl
  | station => simp [buildCap] at h
  | drone j => simp [buildCap] at h

theorem cap_from_tower (ds : List Drone) (v : Node)
    (h : 0 < buildCap ds Node.tower v) : v = Node.station := by
  cases v with
  | station => rfl
  | tower => simp [buildCap] at h
  | drone j => simp [buildCap] at h

theorem cap_from_drone (ds : List Drone) (i : ℕ) (v : Node)
    (h : 0 < buildCap ds (Node.drone i) v) :
    v = Node.tower ∨ ∃ j, v = Node.drone j := by
  cases v with
  | station => simp [buildCap] at h
  | tower => exact Or.inl rfl
  | drone j => exact Or.inr ⟨j, rfl⟩

/-- Every duplicate-free walk from a drone node to the station consists of
a nonempty block of drone nodes followed by the tower and the station. -/
theorem station_path_shape (ds : List Drone) :
    ∀ (p : List Node) (i : ℕ),
      walkB (build_network_graph ds) p = true → p.Nodup →
      p.head? = some (Node.drone i) → p.getLast? = some Node.station →
      ∃ ids : List ℕ, ids.head? = some i ∧
        p = ids.map Node.drone ++ [Node.tower, Node.station] := by
  intro p
  induction p with
  | nil => intro i _ _ hh _; simp at hh
  | cons a rest ih =>
    intro i hw hnd hh hl
    simp at hh
    subst hh
    cases rest with
    | nil => simp at hl
    | cons v rest' =>
      have hadj := walkB_head_adj _ _ _ _ hw
      have hwrest : walkB (build_network_graph ds) (v :: rest') = true :=
        walkB_tail _ _ _ hw (by simp)
      rw [getLast?_cons_ne_nil _ (v :: rest') (by simp)] at hl
      rcases cap_from_drone ds i v ((adjB_iff _ _ _).mp hadj) with hv | ⟨j, hv⟩
      · subst hv
        cases rest' with
        | nil => simp at hl
        | cons w rest'' =>
          have hadj2 := walkB_head_adj _ _ _ _ hwrest
          have hw2 : w = Node.station :=
            cap_from_tower ds w ((adjB_iff _ _ _).mp hadj2)
          subst hw2
          cases rest'' with
          | nil => exact ⟨[i], rfl, rfl⟩
          | cons x rest''' =>
            exfalso
            have hwrest2 : walkB (build_network_graph ds)
                (Node.station :: x :: rest''') = true :=
              walkB_tail _ _ _ hwrest (by simp)
            have hadj3 := walkB_head_adj _ _ _ _ hwrest2
            have hx : x = Node.tower :=
              cap_from_station ds x ((adjB_iff _ _ _).mp hadj3)
            subst hx
            have : ¬ (Node.tower :: Node.station :: Node.tower :: rest''').Nodup := by
              intro hc
              have h1 := (List.nodup_cons.mp hc).1
              simp at h1
            exact this (List.Nodup.of_cons hnd)
      · subst hv
        obtain ⟨ids, hhead, heq⟩ :=
          ih j hwrest (List.Nodup.of_cons hnd) rfl hl
        refine ⟨i :: ids, rfl, ?_⟩
        simp [heq]

theorem wirelessEdgeCount_shape (ids : List ℕ) :
    wirelessEdgeCount (ids.map Node.drone ++ [Node.tower, Node.station])
      = ids.length := by
  induction ids with
  | nil => simp [wirelessEdgeCount, isDroneNode]
  | cons i ids' ih =>
    cases ids' with
    | nil => simp [wirelessEdgeCount, isDroneNode]
    | cons j ids'' =>
      simp only [List.map_cons, List.cons_append, wirelessEdgeCount,
        List.append_eq] at *
      simp [isDroneNode] at *
      omega

theorem filter_isDroneNode_shape (ids : List ℕ) :
    ((ids.map Node.drone ++ [Node.tower, Node.station]).filter
        isDroneNode).length = ids.length := by
  rw [List.filter_append]
  have h1 : (ids.map Node.drone).filter isDroneNode = ids.map Node.drone := by
    apply List.filter_eq_self.mpr
    intro a ha
    rw [List.mem_map] at ha
    obtain ⟨j, _, rfl⟩ := ha
    rfl
  have h2 : ([Node.tower, Node.station]).filter isDroneNode = [] := rfl
  rw [h1, h2]
  simp

theorem extPaths_nodup (G : NetGraph) (t : Node) :
    ∀ fuel (u : Node) (vis : List Node) (p : List Node), u ∉ vis →
      p ∈ extPaths G t fuel u vis → p.Nodup ∧ ∀ x ∈ p, x ∉ vis := by
  intro fuel
  induction fuel with
  | zero => intro u vis p _ hp; simp [extPaths] at hp
  | succ fuel ih =>
    intro u vis p hu hp
    rw [extPaths] at hp
    by_cases hut : u = t
    · subst hut
      rw [if_pos rfl] at hp
      simp at hp
      subst hp
      exact ⟨List.nodup_singleton u, by simpa using hu⟩
    · rw [if_neg hut] at hp
      rw [List.mem_flatMap] at hp
      obtain ⟨v, hv, hpv⟩ := hp
      rw [List.mem_map] at hpv
      obtain ⟨q, hq, rfl⟩ := hpv
      rw [List.mem_filter] at hv
      have hvcond := hv.2
      simp only [Bool.and_eq_true, decide_eq_true_eq] at hvcond
      have hvnotin : v ∉ u :: vis := hvcond.2
      obtain ⟨hqnd, hqvis⟩ := ih v (u :: vis) q hvnotin hq
      constructor
      · rw [List.nodup_cons]
        refine ⟨?_, hqnd⟩
        intro hc
        exact hqvis u hc (List.mem_cons_self u vis)
      · intro x hx
        rcases List.mem_cons.mp hx with h' | h'
        · exact h' ▸ hu
        · exact fun hc => hqvis x h' (List.mem_cons_of_mem u hc)

theorem pickMin_nodup (G : NetGraph) (u t : Node) (p : List Node)
    (hpick : pickMinBy (wt G) (simplePathsBetween G u t) = some p) :
    p.Nodup :=
  (extPaths_nodup G t (FUEL G) u [] p (by simp)
    (pickMinBy_mem _ _ p hpick)).1

theorem capW_dt : buildCap dsW (Node.drone 0) Node.tower = 96 := by
  show capOfSq (sq3 droneW.pos TOWER_POSITION) true = 96
  norm_num [capOfSq, sq3, droneW, TOWER_POSITION, MAX_5G_RANGE,
    LINK_CAPACITY_MAX]

theorem capW_ts : buildCap dsW Node.tower Node.station = 1000 := rfl

theorem adjW_dt : adjB (build_network_graph dsW) (Node.drone 0) Node.tower = true := by
  rw [adjB_iff]
  show (0:ℚ) < buildCap dsW (Node.drone 0) Node.tower
  rw [capW_dt]
  norm_num

theorem adjW_ts : adjB (build_network_graph dsW) Node.tower Node.station = true := by
  rw [adjB_iff]
  show (0:ℚ) < buildCap dsW Node.tower Node.station
  rw [capW_ts]
  norm_num

theorem reachesW_station :
    Reaches (build_network_graph dsW) (Node.drone 0) Node.station :=
  Reaches.step adjW_dt (Reaches.step adjW_ts (Reaches.refl _))

theorem nodesOfW :
    nodesOf (build_network_graph dsW) = [Node.station, Node.tower, Node.drone 0] := rfl

/-- The (unique) minimal path from drone 0 of `dsW` to the station. -/
theorem pickW_station (p : List Node)
    (hpick : pickMinBy (wt (build_network_graph dsW))
      (simplePathsBetween (build_network_graph dsW) (Node.drone 0) Node.station)
      = some p) :
    p = [Node.drone 0, Node.tower, Node.station] := by
  obtain ⟨hw, hh, hl⟩ := pickMin_sound _ _ _ p hpick
  have hnd := pickMin_nodup _ _ _ p hpick
  obtain ⟨ids, hhead, hshape⟩ := station_path_shape dsW p 0 hw hnd hh hl
  cases ids with
  | nil => simp at hhead
  | cons i rest =>
    simp at hhead
    subst hhead
    cases rest with
    | nil => simpa using hshape
    | cons j rest' =>
      exfalso
      have hjmem : Node.drone j ∈ p.tail := by
        rw [hshape]
        simp
      obtain ⟨y, hy⟩ := walk_tail_mem_has_in_edge _ p hw _ hjmem
      have hjnodes := buildCap_pos_right dsW y (Node.drone j) ((adjB_iff _ _ _).mp hy)
      rw [nodesOfW] at hjnodes
      have hj0 : j = 0 := by simpa using hjnodes
      subst hj0
      rw [hshape] at hnd
      simp at hnd

/-- **C3 (counterexample).** A single drone 60 m above the tower: the
path to the station is `[d0, tower, station]`, which has exactly one
wireless hop (the drone→tower edge) in the specification's sense, yet the
returned effective capacity is the full minimum edge capacity 96 — the
code's penalty exponent is `#drone-nodes - 1 = 0`, not the wireless hop
count 1, so the returned capacity differs from
min-capacity × RELAY_HOP_PENALTY ^ (wireless hops) as claimed. -/
theorem C3_counterexample :
    ∃ p hops cap,
      find_path_to_station (build_network_graph dsW) 0 = (some p, some hops, cap) ∧
      wirelessEdgeCount p = 1 ∧
      cap ≠ minCapOf (build_network_graph dsW) p *
          RELAY_HOP_PENALTY ^ wirelessEdgeCount p := by
  obtain ⟨p, hpick⟩ := reaches_pickMin_some dsW _ _ reachesW_station
  have hp := pickW_station p hpick
  subst hp
  refine ⟨_, _, _, by rw [find_path_to_station, hpick], by norm_num [wirelessEdgeCount, isDroneNode], ?_⟩
  have hmin : minCapOf (build_network_graph dsW)
      [Node.drone 0, Node.tower, Node.station] = 96 := by
    show min (buildCap dsW (Node.drone 0) Node.tower)
        (buildCap dsW Node.tower Node.station) = 96
    rw [capW_dt, capW_ts]
    norm_num
  have hfilter : (([Node.drone 0, Node.tower, Node.station]).filter
      isDroneNode).length - 1 = 0 := rfl
  rw [hfilter, hmin]
  norm_num [wirelessEdgeCount, isDroneNode, RELAY_HOP_PENALTY]

/-- **C3 (amended).** `find_path_to_station` on a built graph: on success
the returned path is a minimal-weight walk from the drone to the station,
the hop count is the number of edges, and the effective capacity is the
minimum single-edge capacity times `RELAY_HOP_PENALTY` raised to the
number of *wireless hops minus one* (clamped at zero) — equivalently the
number of drone nodes on the path minus one, which is what
`len([p for p in path if p.startswith('d')]) - 1` computes — with the
wired tower–station edge never counted; on unreachability it returns
`(none, none, 0)`. -/
theorem C3_find_path_to_station_amended (ds : List Drone) (i : ℕ) (d : Drone)
    (hd : lookupAlive ds i = some d) :
    (∀ p hops cap,
        find_path_to_station (build_network_graph ds) i = (some p, some hops, cap) →
        walkB (build_network_graph ds) p = true ∧
        p.head? = some (Node.drone i) ∧
        p.getLast? = some Node.station ∧
        (∀ q, walkB (build_network_graph ds) q = true →
            q.head? = some (Node.drone i) → q.getLast? = some Node.station →
            wt (build_network_graph ds) p ≤ wt (build_network_graph ds) q) ∧
        hops = p.length - 1 ∧ 1 ≤ hops ∧
        cap = minCapOf (build_network_graph ds) p *
            RELAY_HOP_PENALTY ^ ((p.filter isDroneNode).length - 1) ∧
        cap = minCapOf (build_network_graph ds) p *
            RELAY_HOP_PENALTY ^ (wirelessEdgeCount p - 1)) ∧
    (Reaches (build_network_graph ds) (Node.drone i) Node.station →
        ∃ p hops cap, find_path_to_station (build_network_graph ds) i
            = (some p, some hops, cap)) ∧
    (¬ Reaches (build_network_graph ds) (Node.drone i) Node.station →
        find_path_to_station (build_network_graph ds) i = (none, none, 0)) := by
  refine ⟨?_, ?_, ?_⟩
  · intro p hops cap heq
    rw [find_path_to_station] at heq
    cases hpick : pickMinBy (wt (build_network_graph ds))
        (simplePathsBetween (build_network_graph ds) (Node.drone i) Node.station) with
    | none => rw [hpick] at heq; simp at heq
    | some p' =>
      rw [hpick] at heq
      simp only [Prod.mk.injEq, Option.some.injEq] at heq
      obtain ⟨hp, hhops, hcap⟩ := heq
      rw [hp] at hpick hhops hcap
      obtain ⟨hw, hh, hl⟩ := pickMin_sound _ _ _ p hpick
      have hnd := pickMin_nodup _ _ _ p hpick
      have hlen : 2 ≤ p.length :=
        two_le_length_of_ends_ne p _ _ hh hl (by simp)
      obtain ⟨ids, hhead, hshape⟩ := station_path_shape ds p i hw hnd hh hl
      have hcount : (p.filter isDroneNode).length = wirelessEdgeCount p := by
        rw [hshape, filter_isDroneNode_shape, wirelessEdgeCount_shape]
      refine ⟨hw, hh, hl, pickMin_minimal_over_walks ds _ _ p hpick,
        hhops.symm, by omega, hcap.symm, ?_⟩
      rw [← hcap, ← hcount]
  · intro hr
    obtain ⟨p, hpick⟩ := reaches_pickMin_some ds _ _ hr
    refine ⟨p, p.length - 1,
      minCapOf (build_network_graph ds) p *
        RELAY_HOP_PENALTY ^ ((p.filter isDroneNode).length - 1), ?_⟩
    rw [find_path_to_station, hpick]
  · intro hnr
    rw [find_path_to_station, not_reaches_pickMin_none _ _ _ hnr]

/-- Witness for the amended C3 at the concrete fleet `dsW`. -/
theorem C3_find_path_to_station_amended_witness :
    lookupAlive dsW 0 = some droneW ∧
    ((∀ p hops cap,
        find_path_to_station (build_network_graph dsW) 0 = (some p, some hops, cap) →
        walkB (build_network_graph dsW) p = true ∧
        p.head? = some (Node.drone 0) ∧
        p.getLast? = some Node.station ∧
        (∀ q, walkB (build_network_graph dsW) q = true →
            q.head? = some (Node.drone 0) → q.getLast? = some Node.station →
            wt (build_network_graph dsW) p ≤ wt (build_network_graph dsW) q) ∧
        hops = p.length - 1 ∧ 1 ≤ hops ∧
        cap = minCapOf (build_network_graph dsW) p *
            RELAY_HOP_PENALTY ^ ((p.filter isDroneNode).length - 1) ∧
        cap = minCapOf (build_network_graph dsW) p *
            RELAY_HOP_PENALTY ^ (wirelessEdgeCount p - 1)) ∧
    (Reaches (build_network_graph dsW) (Node.drone 0) Node.station →
        ∃ p hops cap, find_path_to_station (build_network_graph dsW) 0
            = (some p, some hops, cap)) ∧
    (¬ Reaches (build_network_graph dsW) (Node.drone 0) Node.station →
        find_path_to_station (build_network_graph dsW) 0 = (none, none, 0))) :=
  ⟨rfl, C3_find_path_to_station_amended dsW 0 droneW rfl⟩

/-- **C6.** `calculate_link_capacity` returns 0 beyond `MAX_5G_RANGE` and
the clamped attenuation formula otherwise; at distance 50 (with
`MAX_5G_RANGE = 300`) the capacity is strictly between 0 and
`LINK_CAPACITY_MAX`; and two drones whose squared distance exceeds
`MAX_5G_RANGE²` get no edge in the built topology graph. -/
theorem C6_calculate_link_capacity (dist : ℚ) (los : Bool) :
    (MAX_5G_RANGE < dist → calculate_link_capacity dist los = 0) ∧
    (dist ≤ MAX_5G_RANGE →
        calculate_link_capacity dist los =
          max 0 (LINK_CAPACITY_MAX * (1 - (dist / MAX_5G_RANGE)^2) *
            (if los then 1 else 3/5))) ∧
    (0 < calculate_link_capacity 50 true ∧
        calculate_link_capacity 50 true < LINK_CAPACITY_MAX) ∧
    (∀ ds i j d d2, lookupAlive ds i = some d → lookupAlive ds j = some d2 →
        MAX_5G_RANGE^2 < sq3 d.pos d2.pos →
        adjB (build_network_graph ds) (Node.drone i) (Node.drone j) = false) := by
  refine ⟨?_, ?_, ?_, ?_⟩
  · intro h
    rw [calculate_link_capacity, if_pos h]
  · intro h
    rw [calculate_link_capacity, if_neg (not_lt_of_le h)]
  · constructor
    · norm_num [calculate_link_capacity, MAX_5G_RANGE, LINK_CAPACITY_MAX]
    · norm_num [calculate_link_capacity, MAX_5G_RANGE, LINK_CAPACITY_MAX]
  · intro ds i j d d2 hi hj hdist
    have hcap : buildCap ds (Node.drone i) (Node.drone j) = 0 := by
      by_cases hij : i = j
      · simp [buildCap, if_pos hij]
      · simp only [buildCap, if_neg hij]
        rw [hi, hj]
        simp only [capOfSq, if_pos hdist]
    show decide (0 < buildCap ds (Node.drone i) (Node.drone j)) = false
    rw [hcap]
    simp only [decide_eq_false_iff_not]
    exact lt_irrefl 0

/-- Witness for C6 at `dist = 400 > MAX_5G_RANGE` (line of sight). -/
theorem C6_calculate_link_capacity_witness :
    MAX_5G_RANGE < (400:ℚ) ∧ calculate_link_capacity 400 true = 0 :=
  ⟨by norm_num [MAX_5G_RANGE],
    (C6_calculate_link_capacity 400 true).1 (by norm_num [MAX_5G_RANGE])⟩

/-! ### The wired backbone (C10) -/

theorem cap_into_station (ds : List Drone) (v : Node)
    (h : 0 < buildCap ds v Node.station) : v = Node.tower := by
  cases v with
  | tower => rfl
  | station => simp [buildCap] at h
  | drone j => simp [buildCap] at h

theorem reaches_into_station (ds : List Drone) (u t : Node)
    (h : Reaches (build_network_graph ds) u t) (ht : t = Node.station) :
    u = Node.station ∨ Reaches (build_network_graph ds) u Node.tower := by
  induction h with
  | refl a => exact Or.inl ht
  | @step a v t' hadj hr ih =>
    subst ht
    right
    rcases ih rfl with hv | hv
    · subst hv
      have ha := cap_into_station ds a ((adjB_iff _ _ _).mp hadj)
      exact ha ▸ Reaches.refl _
    · exact Reaches.step hadj hv

theorem adjB_tower_station (ds : List Drone) :
    adjB (build_network_graph ds) Node.tower Node.station = true := by
  rw [adjB_iff]
  show (0:ℚ) < buildCap ds Node.tower Node.station
  norm_num [buildCap, TOWER_TO_STATION_CAPACITY]

theorem reaches_tower_imp_station (ds : List Drone) (u t : Node)
    (h : Reaches (build_network_graph ds) u t) (ht : t = Node.tower) :
    Reaches (build_network_graph ds) u Node.station := by
  induction h with
  | refl a =>
    subst ht
    exact Reaches.step (adjB_tower_station ds) (Reaches.refl _)
  | @step a v t' hadj hr ih => exact Reaches.step hadj (ih ht)

/-- **C10.** In every built graph the tower and station nodes and the two
wired edges (capacity `TOWER_TO_STATION_CAPACITY`, distance 0) are
present, the only edge into the station comes from the tower, and a drone
node reaches the station iff it reaches the tower. -/
theorem C10_wired_backbone (ds : List Drone) :
    Node.tower ∈ nodesOf (build_network_graph ds) ∧
    Node.station ∈ nodesOf (build_network_graph ds) ∧
    (build_network_graph ds).cap Node.tower Node.station
      = TOWER_TO_STATION_CAPACITY ∧
    (build_network_graph ds).cap Node.station Node.tower
      = TOWER_TO_STATION_CAPACITY ∧
    (build_network_graph ds).distSq Node.tower Node.station = 0 ∧
    (build_network_graph ds).distSq Node.station Node.tower = 0 ∧
    (0:ℚ) < TOWER_TO_STATION_CAPACITY ∧
    (∀ v, 0 < (build_network_graph ds).cap v Node.station → v = Node.tower) ∧
    (∀ i, Reaches (build_network_graph ds) (Node.drone i) Node.station ↔
        Reaches (build_network_graph ds) (Node.drone i) Node.tower) := by
  refine ⟨tower_mem_nodesOf _, station_mem_nodesOf _, rfl, rfl, rfl, rfl,
    by norm_num [TOWER_TO_STATION_CAPACITY], ?_, ?_⟩
  · intro v hv
    exact cap_into_station ds v hv
  · intro i
    constructor
    · intro h
      rcases reaches_into_station ds _ _ h rfl with hc | hc
      · simp at hc
      · exact hc
    · intro h
      exact reaches_tower_imp_station ds _ _ h rfl

/-- Witness for C10 at the concrete fleet `dsW`. -/
theorem C10_wired_backbone_witness :
    Node.tower = Node.tower ∧
    (Reaches (build_network_graph dsW) (Node.drone 0) Node.station ↔
        Reaches (build_network_graph dsW) (Node.drone 0) Node.tower) :=
  ⟨(C10_wired_backbone dsW).2.2.2.2.2.2.2.1 Node.tower
      (by show (0:ℚ) < buildCap dsW Node.tower Node.station
          norm_num [buildCap, TOWER_TO_STATION_CAPACITY]),
    (C10_wired_backbone dsW).2.2.2.2.2.2.2.2 0⟩

theorem scanPhase_drones_scanCore (G : NetGraph) (t : ℕ) :
    ∀ (ds : List Drone) (us : List User),
      (scanPhase G t ds us).1.map scanCore = ds.map scanCore := by
  intro ds
  induction ds with
  | nil => intro us; simp [scanPhase]
  | cons d ds' ih =>
    intro us
    by_cases h : d.alive = true ∧ (d.mode = Mode.SEARCH ∨ d.mode = Mode.RESCUE)
    · simp only [scanPhase, if_pos h, List.map_cons]
      rw [ih]
      rfl
    · simp only [scanPhase, if_neg h, List.map_cons]
      rw [ih]

theorem applyFormation_persCore (cid : ℕ) (tg : List (ℕ × Pos)) (d : Drone) :
    persCore (applyFormation cid tg d) = persCore d := by
  rw [applyFormation]
  cases tg.find? (fun e => e.1 == d.id) with
  | none => rfl
  | some e => rfl

theorem form_drone_cluster_persCore (ds : List Drone) (c : Pos) (cid : ℕ)
    (foff : ℕ → ℚ × ℚ) :
    (form_drone_cluster ds c cid foff).1.map persCore = ds.map persCore := by
  rw [form_drone_cluster]
  by_cases h : (ds.filter (fun d => d.alive && decide (d.mode = Mode.SEARCH))).length
      < MIN_CLUSTER_SIZE
  · rw [if_pos h]
  · rw [if_neg h]
    simp only [List.map_map]
    apply List.map_congr_left
    intro d _
    exact applyFormation_persCore _ _ _

theorem clusterStep_persCore (foff : ℕ → ℚ × ℚ) (t : ℕ)
    (st : List Drone × List (List ℕ × ℕ) × ℕ × List Notif)
    (c : List User) :
    (clusterStep foff t st c).1.map persCore = st.1.map persCore := by
  rw [clusterStep]
  by_cases h : clusterKey c ∈ st.2.1.map Prod.fst
  · rw [if_pos h]
  · rw [if_neg h]
    by_cases h2 : (form_drone_cluster st.1
        (meanPos (c.map (fun u => u.pos))) st.2.2.1 foff).2 = []
    · rw [if_pos h2]
      exact form_drone_cluster_persCore _ _ _ _
    · rw [if_neg h2]
      exact form_drone_cluster_persCore _ _ _ _

theorem clusterFold_persCore (foff : ℕ → ℚ × ℚ) (t : ℕ) :
    ∀ (cs : List (List User))
      (st : List Drone × List (List ℕ × ℕ) × ℕ × List Notif),
      (cs.foldl (clusterStep foff t) st).1.map persCore = st.1.map persCore := by
  intro cs
  induction cs with
  | nil => intro st; rfl
  | cons c cs' ih =>
    intro st
    rw [List.foldl_cons, ih, clusterStep_persCore]

theorem clusterPhase_persCore (foff : ℕ → ℚ × ℚ) (t : ℕ) (ds : List Drone)
    (us : List User) (reg : List (List ℕ × ℕ)) (nid : ℕ) :
    (clusterPhase foff t ds us reg nid).1.map persCore = ds.map persCore :=
  clusterFold_persCore foff t _ _

theorem targetPhase_persCore (us : List User) (ds : List Drone) :
    (targetPhase us ds).map persCore = ds.map persCore := by
  rw [targetPhase, List.map_map]
  apply List.map_congr_left
  intro d _
  simp only [Function.comp_apply]
  by_cases h : d.alive = true ∧ d.mode = Mode.SEARCH
  · rw [if_pos h]
    cases nearestUser d (us.filter (fun u => !u.detected)) with
    | none => rfl
    | some u => rfl
  · rw [if_neg h]

theorem drainAmount_pos (d : Drone) : 0 < drainAmount d := by
  rw [drainAmount]
  by_cases h : d.mode = Mode.RELAY ∨ d.mode = Mode.CLUSTER
  · rw [if_pos h]; norm_num [BATTERY_DRAIN_RELAY, DT]
  · rw [if_neg h]
    cases d.target with
    | none => norm_num [BATTERY_DRAIN_IDLE, DT]
    | some tgt =>
      by_cases h2 : 1 < sq3 tgt d.pos
      · simp only [if_pos h2]; norm_num [BATTERY_DRAIN_MOVING, DT]
      · simp only [if_neg h2]; norm_num [BATTERY_DRAIN_IDLE, DT]

theorem movePhase_eq_map (mv : MoveFn) (ds : List Drone) :
    movePhase mv ds = ds.map (moveDrainStep mv) := rfl

theorem moveDrone_fields (mv : MoveFn) (d : Drone) :
    (moveDrone mv d).id = d.id ∧ (moveDrone mv d).battery = d.battery ∧
    (moveDrone mv d).alive = d.alive ∧ (moveDrone mv d).mode = d.mode ∧
    (moveDrone mv d).target = d.target ∧
    (moveDrone mv d).detected_victims = d.detected_victims := by
  cases h : d.target <;> simp [moveDrone, h]

theorem moveDrainStep_spec (mv : MoveFn) (d : Drone) :
    (moveDrainStep mv d).id = d.id ∧
    (moveDrainStep mv d).detected_victims = d.detected_victims ∧
    ((moveDrainStep mv d).alive = true → d.alive = true) ∧
    ((moveDrainStep mv d).alive = true → 0 < (moveDrainStep mv d).battery) ∧
    (d.alive = false → moveDrainStep mv d = d) ∧
    (d.alive = true →
      ((moveDrainStep mv d).battery = 0 ∧ (moveDrainStep mv d).alive = false) ∨
      ((moveDrainStep mv d).battery < d.battery ∧
        0 < (moveDrainStep mv d).battery ∧
        (moveDrainStep mv d).alive = true)) := by
  rw [moveDrainStep]
  by_cases ha : d.alive = true
  · rw [if_pos ha]
    obtain ⟨hid, hbat, hal, hmode, htgt, hdet⟩ := moveDrone_fields mv d
    rw [drain]
    by_cases hb : (moveDrone mv d).battery - drainAmount (moveDrone mv d) ≤ 0
    · rw [if_pos hb]
      refine ⟨hid, hdet, ?_, ?_, ?_, ?_⟩
      · intro h; simp at h
      · intro h; simp at h
      · intro h; rw [ha] at h; cases h
      · intro _; left; exact ⟨rfl, rfl⟩
    · rw [if_neg hb]
      push_neg at hb
      have hpos := drainAmount_pos (moveDrone mv d)
      refine ⟨hid, hdet, fun _ => ha, fun _ => hb, ?_, ?_⟩
      · intro h; rw [ha] at h; cases h
      · intro _
        right
        have hlt : (moveDrone mv d).battery - drainAmount (moveDrone mv d)
            < d.battery := by
          rw [hbat]
          linarith
        exact ⟨hlt, hb, hal.trans ha⟩
  · rw [if_neg ha]
    exact ⟨rfl, rfl, fun h => h, fun h => absurd h ha, fun _ => rfl,
      fun h => absurd h ha⟩

/-! ### Positional correspondence through the phases -/

theorem map_proj_get {α β : Type} (f : α → β) :
    ∀ (l l' : List α), l.map f = l'.map f →
      l.length = l'.length ∧
      ∀ i (hi : i < l.length) (hi' : i < l'.length),
        f (l.get ⟨i, hi⟩) = f (l'.get ⟨i, hi'⟩) := by
  intro l
  induction l with
  | nil =>
    intro l' h
    cases l' with
    | nil => exact ⟨rfl, fun i hi _ => absurd hi (by simp)⟩
    | cons b t' => simp at h
  | cons a t ih =>
    intro l' h
    cases l' with
    | nil => simp at h
    | cons b t' =>
      simp only [List.map_cons, List.cons.injEq] at h
      obtain ⟨hab, ht⟩ := h
      obtain ⟨hlen, hget⟩ := ih t' ht
      refine ⟨by simp [hlen], ?_⟩
      intro i hi hi'
      cases i with
      | zero => exact hab
      | succ j =>
        exact hget j (by simpa using hi) (by simpa using hi')

theorem physCore_of_scanCore (d : Drone) :
    physCore d = ((fun c => (c.1, c.2.1, c.2.2.1, c.2.2.2.1)) ∘ scanCore) d := rfl

theorem physCore_of_persCore (d : Drone) :
    physCore d = ((fun c => (c.1, c.2.1, c.2.2.1, c.2.2.2.1)) ∘ persCore) d := rfl

theorem scanPhase_drones_physCore (G : NetGraph) (t : ℕ) (ds : List Drone)
    (us : List User) :
    (scanPhase G t ds us).1.map physCore = ds.map physCore := by
  have h := scanPhase_drones_scanCore G t ds us
  calc (scanPhase G t ds us).1.map physCore
      = ((scanPhase G t ds us).1.map scanCore).map
          (fun c => (c.1, c.2.1, c.2.2.1, c.2.2.2.1)) := by
        rw [List.map_map]; rfl
    _ = (ds.map scanCore).map (fun c => (c.1, c.2.1, c.2.2.1, c.2.2.2.1)) := by
        rw [h]
    _ = ds.map physCore := by rw [List.map_map]; rfl

theorem persCore_to_physCore (l l' : List Drone)
    (h : l.map persCore = l'.map persCore) :
    l.map physCore = l'.map physCore := by
  calc l.map physCore
      = (l.map persCore).map (fun c => (c.1, c.2.1, c.2.2.1, c.2.2.2.1)) := by
        rw [List.map_map]; rfl
    _ = (l'.map persCore).map (fun c => (c.1, c.2.1, c.2.2.1, c.2.2.2.1)) := by
        rw [h]
    _ = l'.map physCore := by rw [List.map_map]; rfl

/-- The drones entering phase 5/6 agree with the start-of-tick drones on
id, position, battery and aliveness. -/
theorem tick_ds4_physCore (mv : MoveFn) (foff : ℕ → ℚ × ℚ) (s : SimState) :
    (targetPhase (scanPhase (build_network_graph s.drones) s.time s.drones
        s.users).2.1
      (clusterPhase foff s.time
        (scanPhase (build_network_graph s.drones) s.time s.drones s.users).1
        (scanPhase (build_network_graph s.drones) s.time s.drones s.users).2.1
        s.clusters_formed s.next_cluster_id).1).map physCore
    = s.drones.map physCore := by
  apply Eq.trans (persCore_to_physCore _ _ (targetPhase_persCore _ _))
  apply Eq.trans (persCore_to_physCore _ _ (clusterPhase_persCore _ _ _ _ _ _))
  exact scanPhase_drones_physCore _ _ _ _

theorem tick_drones_length (mv : MoveFn) (foff : ℕ → ℚ × ℚ) (s : SimState) :
    (update_simulation mv foff s).drones.length = s.drones.length := by
  have h := tick_ds4_physCore mv foff s
  have := (map_proj_get physCore _ _ h).1
  simpa [update_simulation, movePhase] using this

/-- Each end-of-tick drone is `moveDrainStep` of a drone physically equal
to the start-of-tick drone at the same index. -/
theorem tick_drones_get (mv : MoveFn) (foff : ℕ → ℚ × ℚ) (s : SimState) :
    ∀ i (hi : i < s.drones.length)
      (hi' : i < (update_simulation mv foff s).drones.length),
      ∃ d4 : Drone, physCore d4 = physCore (s.drones.get ⟨i, hi⟩) ∧
        (update_simulation mv foff s).drones.get ⟨i, hi'⟩ = moveDrainStep mv d4 := by
  intro i hi hi'
  have h := tick_ds4_physCore mv foff s
  obtain ⟨hlen, hget⟩ := map_proj_get physCore _ _ h
  have hi4 : i < (targetPhase (scanPhase (build_network_graph s.drones) s.time
      s.drones s.users).2.1
      (clusterPhase foff s.time
        (scanPhase (build_network_graph s.drones) s.time s.drones s.users).1
        (scanPhase (build_network_graph s.drones) s.time s.drones s.users).2.1
        s.clusters_formed s.next_cluster_id).1).length := by
    omega
  refine ⟨_, hget i hi4 hi, ?_⟩
  show (update_simulation mv foff s).drones.get ⟨i, hi'⟩ = _
  simp only [update_simulation, movePhase_eq_map]
  simp [List.get_eq_getElem, List.getElem_map]

theorem battery_inv_tick (mv : MoveFn) (foff : ℕ → ℚ × ℚ) (s : SimState)
    (h : ∀ d ∈ s.drones, BatteryInv d) :
    ∀ d ∈ (update_simulation mv foff s).drones, BatteryInv d := by
  intro d' hd'
  have hd'' : d' ∈ (update_simulation mv foff s).drones := hd'
  simp only [update_simulation, movePhase_eq_map] at hd''
  rw [List.mem_map] at hd''
  obtain ⟨d4, hd4, rfl⟩ := hd''
  have hphys := tick_ds4_physCore mv foff s
  have : physCore d4 ∈ s.drones.map physCore := by
    rw [← hphys]
    exact List.mem_map_of_mem physCore hd4
  rw [List.mem_map] at this
  obtain ⟨d, hdmem, hdeq⟩ := this
  have hbat : d.battery = d4.battery := congrArg (fun c => c.2.2.1) hdeq
  have hal : d.alive = d4.alive := congrArg (fun c => c.2.2.2) hdeq
  obtain ⟨hinv1, hinv2, hinv3⟩ := h d hdmem
  obtain ⟨_, _, _, hs4, hs5, hs6⟩ := moveDrainStep_spec mv d4
  by_cases ha : d4.alive = true
  · rcases hs6 ha with ⟨hb0, hal0⟩ | ⟨hlt, hpos, halive⟩
    · refine ⟨by rw [hb0], by rw [hb0]; norm_num [BATTERY_INIT], ?_⟩
      rw [hb0, hal0]
      simp
    · refine ⟨le_of_lt hpos, ?_, ?_⟩
      · calc (moveDrainStep mv d4).battery ≤ d4.battery := le_of_lt (by
            rw [← hbat]; rw [hbat]; exact hlt)
          _ = d.battery := hbat.symm
          _ ≤ BATTERY_INIT := hinv2
      · rw [halive]
        constructor
        · intro hc; exact absurd hc (ne_of_gt hpos)
        · intro hc; cases hc
  · have hfalse : d4.alive = false := by
      cases hh : d4.alive
      · rfl
      · exact absurd hh ha
    rw [hs5 hfalse]
    exact ⟨by rw [← hbat]; exact hinv1, by rw [← hbat]; exact hinv2,
      by rw [← hbat, ← hal]; exact hinv3⟩

theorem battery_inv_reachable (mv : MoveFn) (foff : ℕ → ℚ × ℚ) (s : SimState)
    (hreach : Reachable mv foff s) : ∀ d ∈ s.drones, BatteryInv d := by
  obtain ⟨n, s₀, hinit, rfl⟩ := hreach
  induction n with
  | zero =>
    intro d hd
    obtain ⟨hdr, _⟩ := hinit
    obtain ⟨hb, hal, _⟩ := hdr d (by simpa using hd)
    refine ⟨by rw [hb]; norm_num [BATTERY_INIT],
      by rw [hb], ?_⟩
    rw [hb, hal]
    constructor
    · intro hc; norm_num [BATTERY_INIT] at hc
    · intro hc; cases hc
  | succ n ih =>
    rw [Function.iterate_succ_apply']
    exact battery_inv_tick mv foff _ ih

/-- **C1.** In every reachable state every drone's battery lies in
`[0, BATTERY_INIT]` with `battery = 0 ↔ alive = false`; over the next
tick each drone's battery is non-increasing, and a drone alive after the
tick was alive before it (death is irreversible). -/
theorem C1_battery_invariant (mv : MoveFn) (foff : ℕ → ℚ × ℚ) (s : SimState)
    (hreach : Reachable mv foff s) :
    (∀ d ∈ s.drones, 0 ≤ d.battery ∧ d.battery ≤ BATTERY_INIT ∧
        (d.battery = 0 ↔ d.alive = false)) ∧
    (update_simulation mv foff s).drones.length = s.drones.length ∧
    (∀ i (hi : i < s.drones.length)
        (hi' : i < (update_simulation mv foff s).drones.length),
      ((update_simulation mv foff s).drones.get ⟨i, hi'⟩).battery
          ≤ (s.drones.get ⟨i, hi⟩).battery ∧
      (((update_simulation mv foff s).drones.get ⟨i, hi'⟩).alive = true →
          (s.drones.get ⟨i, hi⟩).alive = true)) := by
  have hinv := battery_inv_reachable mv foff s hreach
  refine ⟨hinv, tick_drones_length mv foff s, ?_⟩
  intro i hi hi'
  obtain ⟨d4, hcore, heq⟩ := tick_drones_get mv foff s i hi hi'
  set d := s.drones.get ⟨i, hi⟩ with hdd
  have hbat : d4.battery = d.battery := congrArg (fun c => c.2.2.1) hcore
  have hal : d4.alive = d.alive := congrArg (fun c => c.2.2.2) hcore
  have hdmem : d ∈ s.drones := by rw [hdd]; exact List.get_mem _ _ _
  obtain ⟨hinv1, _, _⟩ := hinv d hdmem
  obtain ⟨_, _, hs3, _, hs5, hs6⟩ := moveDrainStep_spec mv d4
  rw [heq]
  by_cases ha : d4.alive = true
  · rcases hs6 ha with ⟨hb0, _⟩ | ⟨hlt, _, _⟩
    · constructor
      · rw [hb0, ← hbat]
        rw [hbat]
        exact hinv1
      · intro h'
        rw [← hal]; exact ha
    · constructor
      · rw [← hbat]; exact le_of_lt hlt
      · intro _; rw [← hal]; exact ha
  · have hfalse : d4.alive = false := by
      cases hh : d4.alive
      · rfl
      · exact absurd hh ha
    rw [hs5 hfalse]
    exact ⟨le_of_eq hbat, fun h' => hal ▸ h'⟩

theorem InitState_s0 : InitState s0 := by
  refine ⟨?_, ?_, rfl, rfl, rfl, rfl, rfl, ?_, ?_⟩
  · intro d hd; simp [s0] at hd
  · intro u hu; simp [s0] at hu
  · simp [s0]
  · simp [s0]

theorem Reachable_s0 : Reachable mv0 foff0 s0 := ⟨0, s0, InitState_s0, rfl⟩

/-- Witness for C1 at the empty initial deployment. -/
theorem C1_battery_invariant_witness :
    Reachable mv0 foff0 s0 ∧
    ((∀ d ∈ s0.drones, 0 ≤ d.battery ∧ d.battery ≤ BATTERY_INIT ∧
        (d.battery = 0 ↔ d.alive = false)) ∧
    (update_simulation mv0 foff0 s0).drones.length = s0.drones.length ∧
    (∀ i (hi : i < s0.drones.length)
        (hi' : i < (update_simulation mv0 foff0 s0).drones.length),
      ((update_simulation mv0 foff0 s0).drones.get ⟨i, hi'⟩).battery
          ≤ (s0.drones.get ⟨i, hi⟩).battery ∧
      (((update_simulation mv0 foff0 s0).drones.get ⟨i, hi'⟩).alive = true →
          (s0.drones.get ⟨i, hi⟩).alive = true))) :=
  ⟨Reachable_s0, C1_battery_invariant mv0 foff0 s0 Reachable_s0⟩

/-! ### User updates through the phases -/

theorem scan_for_victims_users (d : Drone) :
    ∀ us : List User,
      (scan_for_victims d us).1.length = us.length ∧
      ∀ (i : ℕ) (u : User), us[i]? = some u →
        ((scan_for_victims d us).1[i]? = some u) ∨
        (u.detected = false ∧ sq2 d.pos u.pos ≤ SEARCH_RADIUS^2 ∧
         (scan_for_victims d us).1[i]? =
           some { u with detected := true, detected_by := some d.id }) := by
  intro us
  induction us with
  | nil => exact ⟨rfl, fun i u hu => by simp at hu⟩
  | cons u0 us' ih =>
    obtain ⟨ihlen, ihget⟩ := ih
    by_cases h : ¬ u0.detected = true ∧ sq2 d.pos u0.pos ≤ SEARCH_RADIUS^2
    · rw [scan_for_victims, if_pos h]
      constructor
      · simp [ihlen]
      · intro i u hu
        cases i with
        | zero =>
          simp at hu
          subst hu
          exact Or.inr ⟨by simpa using h.1, h.2, by simp⟩
        | succ j =>
          simp only [List.getElem?_cons_succ] at hu ⊢
          exact ihget j u hu
    · rw [scan_for_victims, if_neg h]
      constructor
      · simp [ihlen]
      · intro i u hu
        cases i with
        | zero =>
          simp at hu
          subst hu
          exact Or.inl (by simp)
        | succ j =>
          simp only [List.getElem?_cons_succ] at hu ⊢
          exact ihget j u hu

theorem scanPhase_users (G : NetGraph) (t : ℕ) :
    ∀ (ds : List Drone) (us : List User),
      (scanPhase G t ds us).2.1.length = us.length ∧
      ∀ (i : ℕ) (u : User), us[i]? = some u →
        ((scanPhase G t ds us).2.1[i]? = some u) ∨
        (u.detected = false ∧
         ∃ d ∈ ds, d.alive = true ∧ (d.mode = Mode.SEARCH ∨ d.mode = Mode.RESCUE) ∧
           sq2 d.pos u.pos ≤ SEARCH_RADIUS^2 ∧
           (scanPhase G t ds us).2.1[i]? =
             some { u with detected := true, detected_by := some d.id }) := by
  intro ds
  induction ds with
  | nil => exact fun us => ⟨rfl, fun i u hu => Or.inl hu⟩
  | cons d ds' ih =>
    intro us
    by_cases h : d.alive = true ∧ (d.mode = Mode.SEARCH ∨ d.mode = Mode.RESCUE)
    · obtain ⟨slen, sget⟩ := scan_for_victims_users d us
      obtain ⟨ilen, iget⟩ := ih (scan_for_victims d us).1
      have hres : (scanPhase G t (d :: ds') us).2.1
          = (scanPhase G t ds' (scan_for_victims d us).1).2.1 := by
        rw [scanPhase, if_pos h]
      rw [hres]
      refine ⟨by rw [ilen, slen], ?_⟩
      intro i u hu
      rcases sget i u hu with hsame | ⟨hundet, hrad, hflip⟩
      · rcases iget i u hsame with hsame2 | ⟨hundet2, d', hd'mem, hrest⟩
        · exact Or.inl hsame2
        · exact Or.inr ⟨hundet2, d', List.mem_cons_of_mem d hd'mem, hrest⟩
      · set uflip : User := { u with detected := true, detected_by := some d.id }
          with huflip
        rcases iget i uflip hflip with hsame2 | ⟨hundet2, _⟩
        · exact Or.inr ⟨hundet, d, List.mem_cons_self d ds', h.1, h.2, hrad, hsame2⟩
        · rw [huflip] at hundet2
          simp at hundet2
    · obtain ⟨ilen, iget⟩ := ih us
      have hres : (scanPhase G t (d :: ds') us).2.1 = (scanPhase G t ds' us).2.1 := by
        rw [scanPhase, if_neg h]
      rw [hres]
      refine ⟨ilen, ?_⟩
      intro i u hu
      rcases iget i u hu with hsame | ⟨hundet, d', hd'mem, hrest⟩
      · exact Or.inl hsame
      · exact Or.inr ⟨hundet, d', List.mem_cons_of_mem d hd'mem, hrest⟩

theorem serve_detCore (G : NetGraph) (ds : List Drone) (u : User) :
    detCore (serve G ds u) = detCore u := by
  cases hf : ds.find? (qualifies G u) with
  | none => simp only [serve, hf]; rfl
  | some d =>
    cases hfb : find_best_path_to_tower G d.id with
    | mk popt rest =>
      cases rest with
      | mk hopt cap =>
        cases popt with
        | none => simp only [serve, hf, hfb]; rfl
        | some p =>
          cases hopt with
          | none => simp only [serve, hf, hfb]; rfl
          | some h => simp only [serve, hf, hfb]; rfl

theorem coveragePhase_get (G : NetGraph) (ds : List Drone) (us : List User) :
    (coveragePhase G ds us).length = us.length ∧
    ∀ (i : ℕ) (u : User), us[i]? = some u →
      (coveragePhase G ds us)[i]? = some (serve G ds u) := by
  refine ⟨by simp [coveragePhase], ?_⟩
  intro i u hu
  simp [coveragePhase, List.getElem?_map, hu]

theorem tick_users_serve (mv : MoveFn) (foff : ℕ → ℚ × ℚ) (s : SimState) :
    (update_simulation mv foff s).users.length = s.users.length ∧
    ∀ (i : ℕ) (u : User), s.users[i]? = some u →
      ∃ u2 : User,
        (scanPhase (build_network_graph s.drones) s.time s.drones s.users).2.1[i]?
          = some u2 ∧
        (update_simulation mv foff s).users[i]? =
          some (serve (build_network_graph s.drones)
            (targetPhase (scanPhase (build_network_graph s.drones) s.time
                s.drones s.users).2.1
              (clusterPhase foff s.time
                (scanPhase (build_network_graph s.drones) s.time s.drones s.users).1
                (scanPhase (build_network_graph s.drones) s.time s.drones
                  s.users).2.1
                s.clusters_formed s.next_cluster_id).1) u2) := by
  obtain ⟨slen, _⟩ := scanPhase_users (build_network_graph s.drones) s.time
    s.drones s.users
  obtain ⟨clen, cget⟩ := coveragePhase_get (build_network_graph s.drones)
    (targetPhase (scanPhase (build_network_graph s.drones) s.time
        s.drones s.users).2.1
      (clusterPhase foff s.time
        (scanPhase (build_network_graph s.drones) s.time s.drones s.users).1
        (scanPhase (build_network_graph s.drones) s.time s.drones s.users).2.1
        s.clusters_formed s.next_cluster_id).1)
    (scanPhase (build_network_graph s.drones) s.time s.drones s.users).2.1
  constructor
  · show (coveragePhase _ _ _).length = _
    rw [clen, slen]
  · intro i u hu
    have hi : i < s.users.length := by
      by_contra hc
      push_neg at hc
      rw [List.getElem?_eq_none hc] at hu
      cases hu
    have hi2 : i < (scanPhase (build_network_graph s.drones) s.time s.drones
        s.users).2.1.length := by rw [slen]; exact hi
    refine ⟨_, List.getElem?_eq_getElem hi2, ?_⟩
    show (coveragePhase _ _ _)[i]? = _
    exact cget i _ (List.getElem?_eq_getElem hi2)

/-- **C8.** `detected` starts false after initialization, is set only by
`scan_for_victims` when an alive SEARCH/RESCUE drone is within
`SEARCH_RADIUS` planar distance, and once true is never reset by any tick. -/
theorem C8_detected_monotonic (mv : MoveFn) (foff : ℕ → ℚ × ℚ) :
    (∀ s, InitState s → ∀ u ∈ s.users, u.detected = false) ∧
    (∀ s : SimState, (update_simulation mv foff s).users.length
        = s.users.length) ∧
    (∀ (s : SimState) (i : ℕ) (u u' : User),
      s.users[i]? = some u →
      (update_simulation mv foff s).users[i]? = some u' →
      (u.detected = true → u'.detected = true) ∧
      (u.detected = false → u'.detected = true →
        ∃ d ∈ s.drones, d.alive = true ∧
          (d.mode = Mode.SEARCH ∨ d.mode = Mode.RESCUE) ∧
          sq2 d.pos u.pos ≤ SEARCH_RADIUS^2)) := by
  refine ⟨?_, ?_, ?_⟩
  · intro s hinit u hu
    exact (hinit.2.1 u hu).2.1
  · intro s
    exact (tick_users_serve mv foff s).1
  · intro s i u u' hu hu'
    obtain ⟨_, hget⟩ := tick_users_serve mv foff s
    obtain ⟨u2, hu2, hserve⟩ := hget i u hu
    rw [hu'] at hserve
    have hu'eq : u' = serve (build_network_graph s.drones) _ u2 :=
      Option.some.inj hserve
    have hdet : u'.detected = u2.detected := by
      rw [hu'eq]
      exact congrArg (fun c => c.2.2.2.1) (serve_detCore _ _ u2)
    obtain ⟨_, sget⟩ := scanPhase_users (build_network_graph s.drones) s.time
      s.drones s.users
    rcases sget i u hu with hsame | ⟨hundet, d, hdmem, hdal, hdmode, hdrad, hflip⟩
    · rw [hsame] at hu2
      have : u2 = u := Option.some.inj hu2.symm
      subst this
      constructor
      · intro h; rw [hdet, h]
      · intro h1 h2
        rw [hdet] at h2
        rw [h1] at h2
        cases h2
    · rw [hflip] at hu2
      have : u2 = { u with detected := true, detected_by := some d.id } :=
        Option.some.inj hu2.symm
      subst this
      constructor
      · intro _; rw [hdet]
      · intro _ _
        exact ⟨d, hdmem, hdal, hdmode, hdrad⟩

/-- Witness for C8 at the empty deployment. -/
theorem C8_detected_monotonic_witness :
    InitState s0 ∧ (∀ u ∈ s0.users, u.detected = false) :=
  ⟨InitState_s0, (C8_detected_monotonic mv0 foff0).1 s0 InitState_s0⟩

/-! ### Dead drones (C9) -/

theorem map_proj_opt {α β : Type} (f : α → β) (l l' : List α)
    (h : l.map f = l'.map f) (i : ℕ) :
    (l[i]?).map f = (l'[i]?).map f := by
  rw [← List.getElem?_map, ← List.getElem?_map, h]

theorem opt_map_proj {α β : Type} (f : α → β) (l l' : List α)
    (h : l.map f = l'.map f) (i : ℕ) (a : α) (ha : l[i]? = some a) :
    ∃ b, l'[i]? = some b ∧ f b = f a := by
  have := map_proj_opt f l l' h i
  rw [ha] at this
  cases hb : l'[i]? with
  | none => rw [hb] at this; simp at this
  | some b =>
    rw [hb] at this
    simp at this
    exact ⟨b, rfl, this.symm⟩

theorem lookupAlive_dead_none (ds : List Drone) (d : Drone)
    (hnodup : (ds.map (fun x => x.id)).Nodup) (hd : d ∈ ds)
    (hdead : d.alive = false) : lookupAlive ds d.id = none := by
  cases hfind : lookupAlive ds d.id with
  | none => rfl
  | some d' =>
    exfalso
    have hmem := List.mem_of_find?_eq_some hfind
    have hid := List.find?_some hfind
    simp at hid
    rw [aliveDrones, List.mem_filter] at hmem
    have heq : d' = d :=
      List.inj_on_of_nodup_map hnodup hmem.1 hd hid
    rw [heq] at hmem
    rw [hdead] at hmem
    simp at hmem

theorem dead_not_in_graph (ds : List Drone) (d : Drone)
    (hnodup : (ds.map (fun x => x.id)).Nodup) (hd : d ∈ ds)
    (hdead : d.alive = false) :
    Node.drone d.id ∉ nodesOf (build_network_graph ds) ∧
    ∀ v, buildCap ds (Node.drone d.id) v = 0 ∧
      buildCap ds v (Node.drone d.id) = 0 := by
  have hlook := lookupAlive_dead_none ds d hnodup hd hdead
  constructor
  · intro hc
    simp [nodesOf, build_network_graph] at hc
    obtain ⟨d', hd'mem, hd'id⟩ := hc
    rw [aliveDrones, List.mem_filter] at hd'mem
    have : d' = d := List.inj_on_of_nodup_map hnodup hd'mem.1 hd hd'id
    rw [this, hdead] at hd'mem
    simp at hd'mem
  · intro v
    constructor
    · cases v with
      | station => rfl
      | tower => simp only [buildCap]; rw [hlook]
      | drone j =>
        simp only [buildCap]
        by_cases hij : d.id = j
        · rw [if_pos hij]
        · rw [if_neg hij, hlook]
    · cases v with
      | station => rfl
      | tower => rfl
      | drone j =>
        simp only [buildCap]
        by_cases hij : j = d.id
        · rw [if_pos hij]
        · rw [if_neg hij, hlook]
          cases lookupAlive ds j <;> rfl

theorem scanPhase_drones_get (G : NetGraph) (t : ℕ) :
    ∀ (ds : List Drone) (us : List User) (i : ℕ) (d : Drone),
      ds[i]? = some d →
      ∃ d2, (scanPhase G t ds us).1[i]? = some d2 ∧
        scanCore d2 = scanCore d ∧ (d.alive = false → d2 = d) := by
  intro ds
  induction ds with
  | nil => intro us i d hd; simp at hd
  | cons d0 ds' ih =>
    intro us i d hd
    by_cases h : d0.alive = true ∧ (d0.mode = Mode.SEARCH ∨ d0.mode = Mode.RESCUE)
    · have hres : (scanPhase G t (d0 :: ds') us).1 =
          ({ d0 with detected_victims := d0.detected_victims ++
              (scan_for_victims d0 us).2.map (fun u => u.id) } : Drone) ::
            (scanPhase G t ds' (scan_for_victims d0 us).1).1 := by
        rw [scanPhase, if_pos h]
      rw [hres]
      cases i with
      | zero =>
        simp at hd
        subst hd
        refine ⟨({ d0 with detected_victims := d0.detected_victims ++
            (scan_for_victims d0 us).2.map (fun u => u.id) } : Drone),
          by simp, rfl, ?_⟩
        intro hdead
        exact absurd h.1 (by rw [hdead]; simp)
      | succ j =>
        simp only [List.getElem?_cons_succ] at hd ⊢
        exact ih _ j d hd
    · have hres : (scanPhase G t (d0 :: ds') us).1 =
          d0 :: (scanPhase G t ds' us).1 := by
        rw [scanPhase, if_neg h]
      rw [hres]
      cases i with
      | zero =>
        simp at hd
        subst hd
        exact ⟨d0, by simp, rfl, fun _ => rfl⟩
      | succ j =>
        simp only [List.getElem?_cons_succ] at hd ⊢
        exact ih _ j d hd

theorem serve_connected (G : NetGraph) (ds : List Drone) (u : User) (j : ℕ)
    (h : (serve G ds u).connected_drone = some j) :
    ∃ d ∈ ds, d.id = j ∧ d.alive = true ∧ qualifies G u d = true := by
  cases hf : ds.find? (qualifies G u) with
  | none =>
    rw [serve, hf] at h
    simp at h
  | some d =>
    have hqual := List.find?_some hf
    have hmem := List.mem_of_find?_eq_some hf
    have halive : d.alive = true := by
      have := hqual
      rw [qualifies] at this
      simp only [Bool.and_eq_true] at this
      exact this.1.1
    cases hfb : find_best_path_to_tower G d.id with
    | mk popt rest =>
      cases rest with
      | mk hopt cap =>
        cases popt with
        | none =>
          simp only [serve, hf, hfb] at h
          simp at h
        | some p =>
          cases hopt with
          | none =>
            simp only [serve, hf, hfb] at h
            simp at h
          | some hh =>
            simp only [serve, hf, hfb] at h
            simp at h
            exact ⟨d, hmem, by omega, halive, hqual⟩

/-- End-of-tick ids coincide with start-of-tick ids. -/
theorem tick_drone_ids (mv : MoveFn) (foff : ℕ → ℚ × ℚ) (s : SimState) :
    (update_simulation mv foff s).drones.map (fun x => x.id)
      = s.drones.map (fun x => x.id) := by
  have h4 := tick_ds4_physCore mv foff s
  have hid4 : (targetPhase (scanPhase (build_network_graph s.drones) s.time
        s.drones s.users).2.1
      (clusterPhase foff s.time
        (scanPhase (build_network_graph s.drones) s.time s.drones s.users).1
        (scanPhase (build_network_graph s.drones) s.time s.drones s.users).2.1
        s.clusters_formed s.next_cluster_id).1).map (fun x => x.id)
      = s.drones.map (fun x => x.id) := by
    calc _ = ((targetPhase _ _).map physCore).map (fun c => c.1) := by
          rw [List.map_map]; rfl
      _ = (s.drones.map physCore).map (fun c => c.1) := by rw [h4]
      _ = _ := by rw [List.map_map]; rfl
  show (movePhase mv _).map (fun x => x.id) = _
  rw [movePhase_eq_map, List.map_map]
  rw [← hid4]
  apply List.map_congr_left
  intro d _
  exact (moveDrainStep_spec mv d).1

theorem tick_dead_drone (mv : MoveFn) (foff : ℕ → ℚ × ℚ) (s : SimState)
    (i : ℕ) (d : Drone) (hd : s.drones[i]? = some d)
    (hdead : d.alive = false) :
    ∃ d', (update_simulation mv foff s).drones[i]? = some d' ∧
      d'.detected_victims = d.detected_victims ∧ d'.alive = false ∧
      d'.battery = d.battery ∧ d'.id = d.id := by
  obtain ⟨d2, hd2, hcore2, hdead2⟩ :=
    scanPhase_drones_get (build_network_graph s.drones) s.time s.drones
      s.users i d hd
  rw [hdead2 hdead] at hd2
  have hpers : (targetPhase (scanPhase (build_network_graph s.drones) s.time
        s.drones s.users).2.1
      (clusterPhase foff s.time
        (scanPhase (build_network_graph s.drones) s.time s.drones s.users).1
        (scanPhase (build_network_graph s.drones) s.time s.drones s.users).2.1
        s.clusters_formed s.next_cluster_id).1).map persCore
      = (scanPhase (build_network_graph s.drones) s.time s.drones
          s.users).1.map persCore := by
    rw [targetPhase_persCore, clusterPhase_persCore]
  obtain ⟨d4, hd4, hcore4⟩ := opt_map_proj persCore _ _ hpers.symm i d hd2
  have hal4 : d4.alive = false := by
    have h1 : d4.alive = d.alive := congrArg (fun c => c.2.2.2.1) hcore4
    rw [h1]
    exact hdead
  refine ⟨d4, ?_, ?_, hal4, ?_, ?_⟩
  · show (movePhase mv _)[i]? = some d4
    rw [movePhase_eq_map, List.getElem?_map, hd4]
    simp
    exact ((moveDrainStep_spec mv d4).2.2.2.2.1 hal4)
  · exact congrArg (fun c => c.2.2.2.2) hcore4
  · exact congrArg (fun c => c.2.2.1) hcore4
  · exact congrArg (fun c => c.1) hcore4

/-- **C9.** A dead drone contributes no node and no edge to the built
topology graph (given the initial distinct-ids invariant), performs no
victim scans (its personal detection log never grows and it stays dead
with the same battery over any tick), is never chosen as a serving drone
in the coverage phase, and a drone whose battery reaches exactly 0 during
a tick is not alive at the end of that tick; drone ids are preserved by
the tick, so such a drone is absent from the graph built on the next
tick. -/
theorem C9_dead_drone_excluded (mv : MoveFn) (foff : ℕ → ℚ × ℚ) :
    (∀ (ds : List Drone) (d : Drone), (ds.map (fun x => x.id)).Nodup →
      d ∈ ds → d.alive = false →
      Node.drone d.id ∉ nodesOf (build_network_graph ds) ∧
      ∀ v, buildCap ds (Node.drone d.id) v = 0 ∧
        buildCap ds v (Node.drone d.id) = 0) ∧
    (∀ (s : SimState) (i : ℕ) (d : Drone),
      s.drones[i]? = some d → d.alive = false →
      ∃ d', (update_simulation mv foff s).drones[i]? = some d' ∧
        d'.detected_victims = d.detected_victims ∧ d'.alive = false ∧
        d'.battery = d.battery ∧ d'.id = d.id) ∧
    (∀ (s : SimState) (i : ℕ) (u' : User) (j : ℕ),
      (update_simulation mv foff s).users[i]? = some u' →
      u'.connected_drone = some j →
      ∃ d ∈ s.drones, d.id = j ∧ d.alive = true) ∧
    (∀ s : SimState, (update_simulation mv foff s).drones.map (fun x => x.id)
        = s.drones.map (fun x => x.id)) ∧
    (∀ (s : SimState) (d' : Drone), d' ∈ (update_simulation mv foff s).drones →
      d'.battery = 0 → d'.alive = false) := by
  refine ⟨?_, ?_, ?_, tick_drone_ids mv foff, ?_⟩
  · intro ds d hnodup hd hdead
    exact dead_not_in_graph ds d hnodup hd hdead
  · intro s i d hd hdead
    exact tick_dead_drone mv foff s i d hd hdead
  · intro s i u' j hu' hconn
    -- u' is `serve` of some user over the phase-5 drone list
    have hi : i < (update_simulation mv foff s).users.length := by
      by_contra hc
      push_neg at hc
      rw [List.getElem?_eq_none hc] at hu'
      cases hu'
    have hi0 : i < s.users.length := by
      rw [← (tick_users_serve mv foff s).1]
      exact hi
    obtain ⟨u, hu⟩ : ∃ u, s.users[i]? = some u :=
      ⟨_, List.getElem?_eq_getElem hi0⟩
    obtain ⟨u2, _, hserve⟩ := (tick_users_serve mv foff s).2 i u hu
    rw [hu'] at hserve
    have hu'eq := Option.some.inj hserve
    rw [hu'eq] at hconn
    obtain ⟨d4, hd4mem, hd4id, hd4alive, _⟩ :=
      serve_connected _ _ _ _ hconn
    have hphys := tick_ds4_physCore mv foff s
    have : physCore d4 ∈ s.drones.map physCore := by
      rw [← hphys]
      exact List.mem_map_of_mem physCore hd4mem
    rw [List.mem_map] at this
    obtain ⟨d, hdmem, hdeq⟩ := this
    refine ⟨d, hdmem, ?_, ?_⟩
    · have h1 : d.id = d4.id := congrArg (fun c => c.1) hdeq
      rw [h1]
      exact hd4id
    · have h1 : d.alive = d4.alive := congrArg (fun c => c.2.2.2) hdeq
      rw [h1]
      exact hd4alive
  · intro s d' hd'
    simp only [update_simulation, movePhase_eq_map] at hd'
    rw [List.mem_map] at hd'
    obtain ⟨d4, _, rfl⟩ := hd'
    intro hb0
    cases hh : (moveDrainStep mv d4).alive with
    | false => rfl
    | true =>
      exfalso
      have := (moveDrainStep_spec mv d4).2.2.2.1 hh
      rw [hb0] at this
      exact lt_irrefl 0 this

theorem C9_dead_drone_excluded_witness :
    ([deadDrone].map (fun x => x.id)).Nodup ∧ deadDrone ∈ [deadDrone] ∧
    deadDrone.alive = false ∧
    (Node.drone deadDrone.id ∉ nodesOf (build_network_graph [deadDrone]) ∧
      ∀ v, buildCap [deadDrone] (Node.drone deadDrone.id) v = 0 ∧
        buildCap [deadDrone] v (Node.drone deadDrone.id) = 0) :=
  ⟨by simp, by simp, rfl,
    (C9_dead_drone_excluded mv0 foff0).1 [deadDrone] deadDrone (by simp)
      (by simp) rfl⟩

/-! ### The cluster registry (C7) -/

theorem clusterStep_mem_key (foff : ℕ → ℚ × ℚ) (t : ℕ)
    (st : List Drone × List (List ℕ × ℕ) × ℕ × List Notif) (c : List User)
    (h : clusterKey c ∈ st.2.1.map Prod.fst) :
    clusterStep foff t st c = st := by
  rw [clusterStep, if_pos h]

theorem clusterStep_too_few (foff : ℕ → ℚ × ℚ) (t : ℕ)
    (st : List Drone × List (List ℕ × ℕ) × ℕ × List Notif) (c : List User)
    (h2 : (st.1.filter
        (fun d => d.alive && decide (d.mode = Mode.SEARCH))).length
      < MIN_CLUSTER_SIZE) :
    (clusterStep foff t st c).1 = st.1 ∧
    (clusterStep foff t st c).2.1 = st.2.1 ∧
    (clusterStep foff t st c).2.2.1 = st.2.2.1 ∧
    (clusterStep foff t st c).2.2.2 = st.2.2.2 := by
  rw [clusterStep]
  by_cases h : clusterKey c ∈ st.2.1.map Prod.fst
  · rw [if_pos h]
    exact ⟨rfl, rfl, rfl, rfl⟩
  · rw [if_neg h]
    have hform : form_drone_cluster st.1
        (meanPos (c.map (fun u => u.pos))) st.2.2.1 foff = (st.1, []) := by
      rw [form_drone_cluster, if_pos h2]
    rw [hform]
    exact ⟨rfl, rfl, rfl, rfl⟩

theorem clusterStep_registry (foff : ℕ → ℚ × ℚ) (t : ℕ)
    (st : List Drone × List (List ℕ × ℕ) × ℕ × List Notif) (c : List User) :
    (clusterStep foff t st c).2.1 = st.2.1 ∨
    (∃ n, (clusterStep foff t st c).2.1 = st.2.1 ++ [(clusterKey c, n)] ∧
      clusterKey c ∉ st.2.1.map Prod.fst) := by
  rw [clusterStep]
  by_cases h : clusterKey c ∈ st.2.1.map Prod.fst
  · rw [if_pos h]
    exact Or.inl rfl
  · rw [if_neg h]
    by_cases h2 : (form_drone_cluster st.1
        (meanPos (c.map (fun u => u.pos))) st.2.2.1 foff).2 = []
    · rw [if_pos h2]
      exact Or.inl rfl
    · rw [if_neg h2]
      exact Or.inr ⟨st.2.2.1, rfl, h⟩

theorem clusterFold_registry (foff : ℕ → ℚ × ℚ) (t : ℕ) :
    ∀ (cs : List (List User))
      (st : List Drone × List (List ℕ × ℕ) × ℕ × List Notif),
      st.2.1 <+: (cs.foldl (clusterStep foff t) st).2.1 ∧
      ((st.2.1.map Prod.fst).Nodup →
        (((cs.foldl (clusterStep foff t) st).2.1).map Prod.fst).Nodup) := by
  intro cs
  induction cs with
  | nil => exact fun st => ⟨List.prefix_rfl, fun h => h⟩
  | cons c cs' ih =>
    intro st
    rw [List.foldl_cons]
    obtain ⟨ihpre, ihnd⟩ := ih (clusterStep foff t st c)
    rcases clusterStep_registry foff t st c with heq | ⟨n, heq, hnotin⟩
    · rw [heq] at ihpre ihnd
      exact ⟨ihpre, ihnd⟩
    · constructor
      · refine List.IsPrefix.trans ?_ ihpre
        rw [heq]
        exact ⟨[(clusterKey c, n)], rfl⟩
      · intro hnd
        apply ihnd
        rw [heq, List.map_append]
        rw [List.nodup_append]
        refine ⟨hnd, by simp, ?_⟩
        intro k hk hk2
        simp at hk2
        rw [hk2] at hk
        exact hnotin hk

theorem tick_registry_prefix (mv : MoveFn) (foff : ℕ → ℚ × ℚ) (s : SimState) :
    s.clusters_formed <+: (update_simulation mv foff s).clusters_formed := by
  show s.clusters_formed <+: (clusterPhase foff s.time _ _ s.clusters_formed
    s.next_cluster_id).2.1
  rw [clusterPhase]
  exact (clusterFold_registry foff s.time
    (detect_user_clusters
      (scanPhase (build_network_graph s.drones) s.time s.drones s.users).2.1)
    ((scanPhase (build_network_graph s.drones) s.time s.drones s.users).1,
      s.clusters_formed, s.next_cluster_id, [])).1

theorem tick_registry_nodup (mv : MoveFn) (foff : ℕ → ℚ × ℚ) (s : SimState)
    (h : (s.clusters_formed.map Prod.fst).Nodup) :
    (((update_simulation mv foff s).clusters_formed).map Prod.fst).Nodup := by
  show (((clusterPhase foff s.time _ _ s.clusters_formed
      s.next_cluster_id).2.1).map Prod.fst).Nodup
  rw [clusterPhase]
  exact (clusterFold_registry foff s.time _ _).2 h

/-- **C7.** The cluster registry never maps the same key twice: the key
list of every reachable state's registry is duplicate-free and the
registry only grows (by appending) over a tick, a cluster whose key is
already registered leaves the whole cluster-phase state unchanged, and
when fewer than `MIN_CLUSTER_SIZE` alive SEARCH drones are available the
cluster step changes neither the drones (no retargeting, no CLUSTER-mode
switch) nor the registry, the id counter or the notifications. -/
theorem C7_cluster_registry_once (mv : MoveFn) (foff : ℕ → ℚ × ℚ) :
    (∀ s, Reachable mv foff s → (s.clusters_formed.map Prod.fst).Nodup) ∧
    (∀ s, s.clusters_formed <+: (update_simulation mv foff s).clusters_formed) ∧
    (∀ (t : ℕ) (st : List Drone × List (List ℕ × ℕ) × ℕ × List Notif)
        (c : List User),
      clusterKey c ∈ st.2.1.map Prod.fst → clusterStep foff t st c = st) ∧
    (∀ (t : ℕ) (st : List Drone × List (List ℕ × ℕ) × ℕ × List Notif)
        (c : List User),
      (st.1.filter (fun d => d.alive && decide (d.mode = Mode.SEARCH))).length
          < MIN_CLUSTER_SIZE →
      (clusterStep foff t st c).1 = st.1 ∧
      (clusterStep foff t st c).2.1 = st.2.1 ∧
      (clusterStep foff t st c).2.2.1 = st.2.2.1 ∧
      (clusterStep foff t st c).2.2.2 = st.2.2.2) := by
  refine ⟨?_, tick_registry_prefix mv foff, clusterStep_mem_key foff,
    clusterStep_too_few foff⟩
  intro s hreach
  obtain ⟨n, s₀, hinit, rfl⟩ := hreach
  induction n with
  | zero =>
    simp only [Function.iterate_zero_apply]
    rw [hinit.2.2.2.2.1]
    simp
  | succ n ih =>
    rw [Function.iterate_succ_apply']
    exact tick_registry_nodup mv foff _ ih

theorem C7_cluster_registry_once_witness :
    clusterKey [userW] ∈ ([([0], 5)] : List (List ℕ × ℕ)).map Prod.fst ∧
    clusterStep foff0 0 (([] : List Drone), [([0], 5)], 7, ([] : List Notif))
      [userW] = (([] : List Drone), [([0], 5)], 7, ([] : List Notif)) :=
  ⟨by simp [clusterKey, userW, List.insertionSort],
    (C7_cluster_registry_once mv0 foff0).2.2.1 0
      (([] : List Drone), [([0], 5)], 7, ([] : List Notif)) [userW]
      (by simp [clusterKey, userW, List.insertionSort])⟩

theorem find_path_station_success (G : NetGraph) (j : ℕ) (p : List Node)
    (h : ℕ) (c : ℚ)
    (heq : find_path_to_station G j = (some p, some h, c)) :
    1 ≤ h ∧ walkB G p = true ∧ p.head? = some (Node.drone j) ∧
    p.getLast? = some Node.station := by
  rw [find_path_to_station] at heq
  cases hpick : pickMinBy (wt G)
      (simplePathsBetween G (Node.drone j) Node.station) with
  | none => rw [hpick] at heq; simp at heq
  | some q =>
    rw [hpick] at heq
    simp only [Prod.mk.injEq, Option.some.injEq] at heq
    obtain ⟨hp, hh, _⟩ := heq
    rw [hp] at hpick hh
    obtain ⟨hw, hhd, hlast⟩ := pickMin_sound G _ _ p hpick
    have h2 : 2 ≤ p.length := two_le_length_of_ends_ne p _ _ hhd hlast (by simp)
    exact ⟨by omega, hw, hhd, hlast⟩

theorem stationDelivery_some (G : NetGraph) (j : ℕ) (pi : PathInfo)
    (h : stationDelivery G j = some pi) :
    find_path_to_station G j = (some pi.path, some pi.hops, pi.capacity) ∧
    pi.path ≠ [] ∧ 0 < pi.capacity ∧ 1 ≤ pi.hops := by
  rw [stationDelivery] at h
  cases heq : find_path_to_station G j with
  | mk op rest =>
    cases op with
    | none => rw [heq] at h; simp at h
    | some p =>
      cases rest with
      | mk oh c =>
        cases oh with
        | none => rw [heq] at h; simp at h
        | some hh =>
          rw [heq] at h
          have h2 : (if p ≠ [] ∧ 0 < c then
              some ({ path := p, hops := hh, capacity := c } : PathInfo)
            else none) = some pi := h
          by_cases hg : p ≠ [] ∧ 0 < c
          · rw [if_pos hg] at h2
            simp only [Option.some.injEq] at h2
            subst h2
            refine ⟨?_, hg.1, hg.2, ?_⟩
            · simpa using heq
            · simpa using (find_path_station_success G j p hh c heq).1
          · rw [if_neg hg] at h2
            simp at h2

theorem stationDelivery_none (G : NetGraph) (j : ℕ) (p : List Node)
    (h : ℕ) (c : ℚ) (hsd : stationDelivery G j = none)
    (heq : find_path_to_station G j = (some p, some h, c)) :
    ¬ (p ≠ [] ∧ 0 < c) := by
  intro hg
  rw [stationDelivery, heq] at hsd
  have h2 : (if p ≠ [] ∧ 0 < c then
      some ({ path := p, hops := h, capacity := c } : PathInfo)
    else none) = none := hsd
  rw [if_pos hg] at h2
  simp at h2

theorem deliverySucceeds_iff (G : NetGraph) (j : ℕ) :
    deliverySucceeds G j ↔ ∃ pi, stationDelivery G j = some pi := by
  constructor
  · rintro ⟨p, h, c, heq, hne, hpos⟩
    refine ⟨{ path := p, hops := h, capacity := c }, ?_⟩
    rw [stationDelivery, heq]
    show (if p ≠ [] ∧ 0 < c then
        some ({ path := p, hops := h, capacity := c } : PathInfo)
      else none) = some { path := p, hops := h, capacity := c }
    rw [if_pos ⟨hne, hpos⟩]
  · rintro ⟨pi, hpi⟩
    obtain ⟨heq, hne, hpos, _⟩ := stationDelivery_some G j pi hpi
    exact ⟨pi.path, pi.hops, pi.capacity, heq, hne, hpos⟩

theorem deliveryReports_some (G : NetGraph) (time did : ℕ) (pi : PathInfo)
    (h : stationDelivery G did = some pi) (dets : List User) :
    deliveryReports G time did dets = dets.map (mkReport time did pi) := by
  rw [deliveryReports, h]

theorem deliveryReports_none (G : NetGraph) (time did : ℕ)
    (h : stationDelivery G did = none) (dets : List User) :
    deliveryReports G time did dets = [] := by
  rw [deliveryReports, h]

theorem reportDetections_cons_some (G : NetGraph) (time did : ℕ)
    (pi : PathInfo) (hsd : stationDelivery G did = some pi)
    (u : User) (us : List User) :
    reportDetections G time did (u :: us) =
      (mkReport time did pi u :: (reportDetections G time did us).1,
       Notif.victim time did u.id u.group_size (some pi)
         :: (reportDetections G time did us).2) := by
  obtain ⟨hfp, hne, hpos, _⟩ := stationDelivery_some G did pi hsd
  simp only [reportDetections, hfp]
  rw [if_pos ⟨hne, hpos⟩]
  rfl

theorem reportDetections_cons_none (G : NetGraph) (time did : ℕ)
    (hsd : stationDelivery G did = none) (u : User) (us : List User) :
    reportDetections G time did (u :: us) =
      ((reportDetections G time did us).1,
       Notif.victim time did u.id u.group_size none
         :: (reportDetections G time did us).2) := by
  cases hfp : find_path_to_station G did with
  | mk op rest =>
    cases op with
    | none => simp only [reportDetections, hfp]
    | some p =>
      cases rest with
      | mk oh c =>
        cases oh with
        | none => simp only [reportDetections, hfp]
        | some hh =>
          have hg := stationDelivery_none G did p hh c hsd hfp
          simp only [reportDetections, hfp]
          rw [if_neg hg]

/-- The per-drone reporting loop, in closed form: one notification per
newly detected user (all carrying the same path info, computed once per
drone) and, exactly when the delivery guard holds, one report per newly
detected user. -/
theorem reportDetections_eq (G : NetGraph) (time did : ℕ) :
    ∀ dets : List User,
      reportDetections G time did dets =
        (deliveryReports G time did dets,
         dets.map (fun u =>
           Notif.victim time did u.id u.group_size (stationDelivery G did))) := by
  intro dets
  induction dets with
  | nil =>
    cases h : stationDelivery G did with
    | none => rw [deliveryReports_none G time did h]; rfl
    | some pi => rw [deliveryReports_some G time did pi h]; rfl
  | cons u us ih =>
    cases hsd : stationDelivery G did with
    | some pi =>
      rw [reportDetections_cons_some G time did pi hsd u us, ih,
        deliveryReports_some G time did pi hsd,
        deliveryReports_some G time did pi hsd, hsd]
      rfl
    | none =>
      rw [reportDetections_cons_none G time did hsd u us, ih,
        deliveryReports_none G time did hsd,
        deliveryReports_none G time did hsd, hsd]
      rfl

theorem victimNotifCount_map (uid time did : ℕ) (pi : Option PathInfo)
    (us : List User) :
    victimNotifCount uid
      (us.map (fun u => Notif.victim time did u.id u.group_size pi)) =
    (us.filter (fun u => u.id == uid)).length := by
  rw [victimNotifCount, ← List.countP_eq_length_filter,
    ← List.countP_eq_length_filter, List.countP_map]
  apply List.countP_congr
  intro u _
  simp [isVictimNotifFor]

theorem reportCount_map (uid time did : ℕ) (pi : PathInfo) (us : List User) :
    reportCount uid (us.map (mkReport time did pi)) =
    (us.filter (fun u => u.id == uid)).length := by
  rw [reportCount, ← List.countP_eq_length_filter,
    ← List.countP_eq_length_filter, List.countP_map]
  apply List.countP_congr
  intro u _
  simp [mkReport]

theorem filter_id_nodup_length (u : User) (us : List User)
    (hnd : (us.map (fun x => x.id)).Nodup) (hmem : u ∈ us) :
    (us.filter (fun x => x.id == u.id)).length = 1 := by
  have h1 : (us.filter (fun x => x.id == u.id)).length
      = (us.map (fun x => x.id)).countP (fun y => y == u.id) := by
    rw [← List.countP_eq_length_filter, List.countP_map]
    rfl
  have h2 : (us.map (fun x => x.id)).countP (fun y => y == u.id)
      = (us.map (fun x => x.id)).count u.id := rfl
  rw [h1, h2]
  exact List.count_eq_one_of_mem hnd (List.mem_map_of_mem _ hmem)

theorem reportDetections_valid (G : NetGraph) (time did : ℕ)
    (dets : List User) :
    ∀ r ∈ (reportDetections G time did dets).1,
      1 ≤ r.hops ∧ 0 < r.capacity ∧ r.time = time ∧ r.drone_id = did ∧
      ∃ u ∈ dets, r.user_id = u.id ∧ r.group_size = u.group_size ∧
        r.location = u.pos ∧
        find_path_to_station G did = (some r.path, some r.hops, r.capacity) := by
  intro r hr
  rw [reportDetections_eq] at hr
  have hr2 : r ∈ deliveryReports G time did dets := hr
  cases hsd : stationDelivery G did with
  | none =>
    rw [deliveryReports_none G time did hsd] at hr2
    simp at hr2
  | some pi =>
    rw [deliveryReports_some G time did pi hsd] at hr2
    obtain ⟨hfp, hne, hpos, hhops⟩ := stationDelivery_some G did pi hsd
    rw [List.mem_map] at hr2
    obtain ⟨u, hu, rfl⟩ := hr2
    exact ⟨hhops, hpos, rfl, rfl, u, hu, rfl, rfl, rfl, hfp⟩

theorem scanPhase_reports_valid (G : NetGraph) (t : ℕ) :
    ∀ (ds : List Drone) (us : List User),
      ∀ r ∈ (scanPhase G t ds us).2.2.1, 1 ≤ r.hops ∧ 0 < r.capacity := by
  intro ds
  induction ds with
  | nil => intro us r hr; simp [scanPhase] at hr
  | cons d ds' ih =>
    intro us r hr
    by_cases h : d.alive = true ∧ (d.mode = Mode.SEARCH ∨ d.mode = Mode.RESCUE)
    · rw [scanPhase, if_pos h] at hr
      simp only [List.mem_append] at hr
      rcases hr with hr | hr
      · obtain ⟨h1, h2, _⟩ :=
          reportDetections_valid G t d.id (scan_for_victims d us).2 r hr
        exact ⟨h1, h2⟩
      · exact ih (scan_for_victims d us).1 r hr
    · rw [scanPhase, if_neg h] at hr
      exact ih us r hr

theorem tick_reports_eq (mv : MoveFn) (foff : ℕ → ℚ × ℚ) (s : SimState) :
    (update_simulation mv foff s).reports = s.reports ++
      (scanPhase (build_network_graph s.drones) s.time s.drones s.users).2.2.1 :=
  rfl

theorem reports_valid_reachable (mv : MoveFn) (foff : ℕ → ℚ × ℚ)
    (s : SimState) (hreach : Reachable mv foff s) :
    ∀ r ∈ s.reports, 1 ≤ r.hops ∧ 0 < r.capacity := by
  obtain ⟨n, s₀, hinit, rfl⟩ := hreach
  induction n with
  | zero =>
    simp only [Function.iterate_zero_apply]
    rw [hinit.2.2.1]
    intro r hr
    simp at hr
  | succ n ih =>
    rw [Function.iterate_succ_apply']
    rw [tick_reports_eq]
    intro r hr
    rcases List.mem_append.mp hr with hr | hr
    · exact ih r hr
    · exact scanPhase_reports_valid _ _ _ _ r hr

/-- **C4.** Phase 2 reporting: a tick only ever appends to the station's
report log, and for each drone the per-detection loop emits exactly one
victim notification per newly detected user; when `find_path_to_station`
yields a nonempty path of positive effective capacity the loop also
appends exactly one report per newly detected user (carrying the time,
drone id, user id, group size, position snapshot, path, hop count and
capacity) and every notification carries full path info; otherwise the
report log receives nothing and every notification is degraded (no path
info), so the detection is recorded but the delivery is not retried.
Consequently every report in any reachable state's log has hop count ≥ 1
and capacity > 0. -/
theorem C4_detection_reporting (mv : MoveFn) (foff : ℕ → ℚ × ℚ) :
    (∀ s, Reachable mv foff s → ∀ r ∈ s.reports,
        1 ≤ r.hops ∧ 0 < r.capacity) ∧
    (∀ s, s.reports <+: (update_simulation mv foff s).reports) ∧
    (∀ (G : NetGraph) (time did : ℕ) (dets : List User),
      ((reportDetections G time did dets).2 =
        dets.map (fun u =>
          Notif.victim time did u.id u.group_size (stationDelivery G did))) ∧
      (deliverySucceeds G did →
        (reportDetections G time did dets).1.length = dets.length ∧
        ∀ n ∈ (reportDetections G time did dets).2, notifHasPath n = true) ∧
      (¬ deliverySucceeds G did →
        (reportDetections G time did dets).1 = [] ∧
        ∀ n ∈ (reportDetections G time did dets).2, notifHasPath n = false) ∧
      (∀ r ∈ (reportDetections G time did dets).1,
        1 ≤ r.hops ∧ 0 < r.capacity ∧ r.time = time ∧ r.drone_id = did ∧
        ∃ u ∈ dets, r.user_id = u.id ∧ r.group_size = u.group_size ∧
          r.location = u.pos ∧
          find_path_to_station G did = (some r.path, some r.hops, r.capacity)) ∧
      ((dets.map (fun u => u.id)).Nodup → ∀ u ∈ dets,
        victimNotifCount u.id (reportDetections G time did dets).2 = 1 ∧
        (deliverySucceeds G did →
          reportCount u.id (reportDetections G time did dets).1 = 1))) := by
  refine ⟨reports_valid_reachable mv foff, ?_, ?_⟩
  · intro s
    rw [tick_reports_eq]
    exact ⟨_, rfl⟩
  · intro G time did dets
    refine ⟨?_, ?_, ?_, reportDetections_valid G time did dets, ?_⟩
    · rw [reportDetections_eq]
    · intro hds
      obtain ⟨pi, hpi⟩ := (deliverySucceeds_iff G did).mp hds
      constructor
      · have h1 : (reportDetections G time did dets).1
            = deliveryReports G time did dets := by rw [reportDetections_eq]
        rw [h1, deliveryReports_some G time did pi hpi]
        simp
      · intro n hn
        have h2 : (reportDetections G time did dets).2
            = dets.map (fun u =>
              Notif.victim time did u.id u.group_size (stationDelivery G did)) := by
          rw [reportDetections_eq]
        rw [h2] at hn
        simp only [List.mem_map] at hn
        obtain ⟨u, _, rfl⟩ := hn
        rw [hpi]
        rfl
    · intro hds
      have hpi : stationDelivery G did = none := by
        cases hsd : stationDelivery G did with
        | none => rfl
        | some pi => exact absurd ((deliverySucceeds_iff G did).mpr ⟨pi, hsd⟩) hds
      constructor
      · have h1 : (reportDetections G time did dets).1
            = deliveryReports G time did dets := by rw [reportDetections_eq]
        rw [h1, deliveryReports_none G time did hpi]
      · intro n hn
        have h2 : (reportDetections G time did dets).2
            = dets.map (fun u =>
              Notif.victim time did u.id u.group_size (stationDelivery G did)) := by
          rw [reportDetections_eq]
        rw [h2] at hn
        simp only [List.mem_map] at hn
        obtain ⟨u, _, rfl⟩ := hn
        rw [hpi]
        rfl
    · intro hnd u hu
      constructor
      · have h2 : (reportDetections G time did dets).2
            = dets.map (fun v =>
              Notif.victim time did v.id v.group_size (stationDelivery G did)) := by
          rw [reportDetections_eq]
        rw [h2, victimNotifCount_map]
        exact filter_id_nodup_length u dets hnd hu
      · intro hds
        obtain ⟨pi, hpi⟩ := (deliverySucceeds_iff G did).mp hds
        have h1 : (reportDetections G time did dets).1
            = deliveryReports G time did dets := by rw [reportDetections_eq]
        rw [h1, deliveryReports_some G time did pi hpi, reportCount_map]
        exact filter_id_nodup_length u dets hnd hu

theorem C4_detection_reporting_witness :
    (∀ r ∈ s0.reports, 1 ≤ r.hops ∧ 0 < r.capacity) ∧
    victimNotifCount 3
      (reportDetections (build_network_graph dsW) 0 0 [uC4]).2 = 1 ∧
    reportCount 3
      (reportDetections (build_network_graph dsW) 0 0 [uC4]).1 = 1 := by
  have hds : deliverySucceeds (build_network_graph dsW) 0 := by
    obtain ⟨p, hpick⟩ := reaches_pickMin_some dsW _ _ reachesW_station
    have hp := pickW_station p hpick
    subst hp
    refine ⟨_, _, _, by rw [find_path_to_station, hpick], by simp, ?_⟩
    have hmin : minCapOf (build_network_graph dsW)
        [Node.drone 0, Node.tower, Node.station] = 96 := by
      show min (buildCap dsW (Node.drone 0) Node.tower)
          (buildCap dsW Node.tower Node.station) = 96
      rw [capW_dt, capW_ts]
      norm_num
    have hfilter : (([Node.drone 0, Node.tower, Node.station]).filter
        isDroneNode).length - 1 = 0 := rfl
    rw [hfilter, hmin]
    norm_num
  have h := (C4_detection_reporting mv0 foff0).2.2 (build_network_graph dsW)
    0 0 [uC4]
  have hnd : (([uC4]).map (fun u => u.id)).Nodup := by simp
  obtain ⟨hvc, hrc⟩ := h.2.2.2.2 hnd uC4 (List.mem_cons_self _ _)
  exact ⟨(C4_detection_reporting mv0 foff0).1 s0 Reachable_s0, hvc, hrc hds⟩

theorem scan5 : scanPhase (build_network_graph [d5]) 0 [d5] [u5]
    = ([d5], [u5], [], []) := by
  rw [scanPhase, if_neg (by simp [d5])]
  rfl

theorem duc5 : detect_user_clusters [u5] = [] := by
  rw [detect_user_clusters, detectClustersAux,
    if_pos (Or.inr (by norm_num [u5, CLUSTER_FORMATION_THRESHOLD]))]
  rfl

theorem cluster5 : clusterPhase foff0 0 [d5] [u5] [] 0 = ([d5], [], 0, []) := by
  rw [clusterPhase, duc5]
  rfl

theorem target5 : targetPhase [u5] [d5] = [d5] := by
  rw [targetPhase]
  show [if d5.alive = true ∧ d5.mode = Mode.SEARCH then _ else d5] = [d5]
  rw [if_neg (by simp [d5])]

theorem nodesOf5 :
    nodesOf (build_network_graph [d5])
      = [Node.station, Node.tower, Node.drone 0] := rfl

theorem minCap5 :
    minCapOf (build_network_graph [d5]) [Node.drone 0, Node.tower]
      = 752/9 := by
  show buildCap [d5] (Node.drone 0) Node.tower = 752/9
  show capOfSq (sq3 d5.pos TOWER_POSITION) true = 752/9
  norm_num [capOfSq, sq3, d5, TOWER_POSITION, MAX_5G_RANGE, LINK_CAPACITY_MAX]

theorem adj5_dt :
    adjB (build_network_graph [d5]) (Node.drone 0) Node.tower = true := by
  rw [adjB_iff]
  show (0:ℚ) < minCapOf (build_network_graph [d5]) [Node.drone 0, Node.tower]
  rw [minCap5]
  norm_num

theorem reaches5_tower :
    Reaches (build_network_graph [d5]) (Node.drone 0) Node.tower :=
  Reaches.step adj5_dt (Reaches.refl _)

/-- The (unique) minimal path from drone 0 of `[d5]` to the tower. -/
theorem pickC5_tower (p : List Node)
    (hpick : pickMinBy (wt (build_network_graph [d5]))
      (simplePathsBetween (build_network_graph [d5]) (Node.drone 0) Node.tower)
      = some p) :
    p = [Node.drone 0, Node.tower] := by
  obtain ⟨hw, hh, hl⟩ := pickMin_sound _ _ _ p hpick
  have hnd := pickMin_nodup _ _ _ p hpick
  cases p with
  | nil => simp at hh
  | cons a rest =>
    simp at hh
    subst hh
    cases rest with
    | nil => simp at hl
    | cons v rest' =>
      have hadj := walkB_head_adj _ _ _ _ hw
      rw [getLast?_cons_ne_nil _ (v :: rest') (by simp)] at hl
      rcases cap_from_drone [d5] 0 v ((adjB_iff _ _ _).mp hadj) with hv | ⟨j, hv⟩
      · subst hv
        cases rest' with
        | nil => rfl
        | cons w rest'' =>
          exfalso
          have hwrest : walkB (build_network_graph [d5])
              (Node.tower :: w :: rest'') = true :=
            walkB_tail _ _ _ hw (by simp)
          have hadj2 := walkB_head_adj _ _ _ _ hwrest
          have hw2 : w = Node.station :=
            cap_from_tower [d5] w ((adjB_iff _ _ _).mp hadj2)
          subst hw2
          cases rest'' with
          | nil => simp at hl
          | cons x rest''' =>
            have hwrest2 : walkB (build_network_graph [d5])
                (Node.station :: x :: rest''') = true :=
              walkB_tail _ _ _ hwrest (by simp)
            have hadj3 := walkB_head_adj _ _ _ _ hwrest2
            have hx : x = Node.tower :=
              cap_from_station [d5] x ((adjB_iff _ _ _).mp hadj3)
            subst hx
            have h1 := (List.nodup_cons.mp hnd).2
            have h2 := (List.nodup_cons.mp h1).1
            simp at h2
      · subst hv
        exfalso
        have hjnodes := buildCap_pos_right [d5] (Node.drone 0) (Node.drone j)
          ((adjB_iff _ _ _).mp hadj)
        rw [nodesOf5] at hjnodes
        have hj0 : j = 0 := by simpa using hjnodes
        subst hj0
        simp at hnd

theorem fbpt5 : find_best_path_to_tower (build_network_graph [d5]) 0
    = (some [Node.drone 0, Node.tower], some 1, 752/9) := by
  obtain ⟨p, hpick⟩ := reaches_pickMin_some [d5] _ _ reaches5_tower
  have hp := pickC5_tower p hpick
  subst hp
  rw [find_best_path_to_tower, hpick]
  show (some [Node.drone 0, Node.tower], some 1,
      minCapOf (build_network_graph [d5]) [Node.drone 0, Node.tower] *
        RELAY_HOP_PENALTY ^ 0)
    = (some [Node.drone 0, Node.tower], some 1, (752/9 : ℚ))
  rw [minCap5]
  norm_num

theorem qualifies5 : qualifies (build_network_graph [d5]) u5 d5 = true := by
  have hid : d5.id = 0 := rfl
  rw [qualifies, hid, fbpt5]
  show ((d5.alive && decide (sq2 d5.pos u5.pos ≤ COVERAGE_RADIUS^2)) &&
      (!(([Node.drone 0, Node.tower] : List Node).isEmpty) &&
        decide ((0:ℚ) < 752/9))) = true
  have h1 : sq2 d5.pos u5.pos ≤ COVERAGE_RADIUS^2 := by
    norm_num [sq2, d5, u5, COVERAGE_RADIUS]
  have h2 : (0:ℚ) < 752/9 := by norm_num
  simp only [Bool.and_eq_true, decide_eq_true_eq]
  exact ⟨⟨rfl, h1⟩, rfl, h2⟩

theorem find5 : ([d5]).find? (qualifies (build_network_graph [d5]) u5)
    = some d5 :=
  List.find?_cons_of_pos [] qualifies5

theorem serve5 : serve (build_network_graph [d5]) [d5] u5 =
    { u5 with
      served := true
      throughput := 752/9
      connected_drone := some 0
      hops_to_tower := some 1 } := by
  have hid : d5.id = 0 := rfl
  simp only [serve, find5, hid, fbpt5]

theorem tickC5_users :
    (update_simulation mvC5 foff0 s5).users
      = [serve (build_network_graph [d5]) [d5] u5] := by
  show coveragePhase (build_network_graph [d5])
      (targetPhase (scanPhase (build_network_graph [d5]) 0 [d5] [u5]).2.1
        (clusterPhase foff0 0 (scanPhase (build_network_graph [d5]) 0 [d5] [u5]).1
          (scanPhase (build_network_graph [d5]) 0 [d5] [u5]).2.1 [] 0).1)
      (scanPhase (build_network_graph [d5]) 0 [d5] [u5]).2.1
      = [serve (build_network_graph [d5]) [d5] u5]
  rw [scan5]
  show coveragePhase (build_network_graph [d5])
      (targetPhase [u5] (clusterPhase foff0 0 [d5] [u5] [] 0).1) [u5] = _
  rw [cluster5]
  show coveragePhase (build_network_graph [d5]) (targetPhase [u5] [d5]) [u5] = _
  rw [target5]
  rfl

theorem move5 : moveDrone mvC5 d5 = { d5 with pos := (250, 135, 80) } := by
  have h : mvC5 d5.pos (250, 140, 80) = ((250 : ℚ), (135 : ℚ), (80 : ℚ)) := by
    show mvC5 (250, 130, 80) (250, 140, 80) = (250, 135, 80)
    norm_num [mvC5, DRONE_SPEED, DT, min_def]
  show { d5 with pos := mvC5 d5.pos (250, 140, 80) } = _
  rw [h]

theorem drain5 : drain (moveDrone mvC5 d5)
    = { d5 with pos := (250, 135, 80), battery := 14970 } := by
  rw [move5]
  norm_num [drain, drainAmount, d5, BATTERY_DRAIN_RELAY, DT]

theorem tickC5_drones :
    (update_simulation mvC5 foff0 s5).drones
      = [{ d5 with pos := (250, 135, 80), battery := 14970 }] := by
  show movePhase mvC5
      (targetPhase (scanPhase (build_network_graph [d5]) 0 [d5] [u5]).2.1
        (clusterPhase foff0 0 (scanPhase (build_network_graph [d5]) 0 [d5] [u5]).1
          (scanPhase (build_network_graph [d5]) 0 [d5] [u5]).2.1 [] 0).1) = _
  rw [scan5]
  show movePhase mvC5 (targetPhase [u5] (clusterPhase foff0 0 [d5] [u5] [] 0).1) = _
  rw [cluster5]
  show movePhase mvC5 (targetPhase [u5] [d5]) = _
  rw [target5]
  show [if d5.alive = true then drain (moveDrone mvC5 d5) else d5] = _
  rw [if_pos (show d5.alive = true from rfl), drain5]

/-- **C5 (counterexample).** Coverage is *not* recomputed after the
movement phase: in `update_simulation` the coverage pass (step 5) runs
before movement (step 6), from start-of-tick positions.  Concretely, a
relay drone hovering exactly `COVERAGE_RADIUS` from a victim and heading
away serves that victim in the tick's output even though, at the
post-movement positions the output records, the serving drone — the only
drone in the fleet — is strictly outside the coverage radius, which the
claimed post-movement recomputation would forbid. -/
theorem C5_counterexample :
    ∃ u' d',
      (update_simulation mvC5 foff0 s5).users = [u'] ∧
      (update_simulation mvC5 foff0 s5).drones = [d'] ∧
      u'.served = true ∧ u'.connected_drone = some d'.id ∧ d'.alive = true ∧
      COVERAGE_RADIUS^2 < sq2 d'.pos u'.pos := by
  refine ⟨serve (build_network_graph [d5]) [d5] u5,
    { d5 with pos := (250, 135, 80), battery := 14970 },
    tickC5_users, tickC5_drones, ?_, ?_, rfl, ?_⟩
  · rw [serve5]
  · rw [serve5]
    rfl
  · rw [serve5]
    show COVERAGE_RADIUS^2 < sq2 ((250:ℚ), (135:ℚ), (80:ℚ)) u5.pos
    norm_num [sq2, u5, COVERAGE_RADIUS]

theorem find_first_aux {α : Type} (p : α → Bool) :
    ∀ (l : List α) (a : α), l.find? p = some a →
      ∃ i : ℕ, l[i]? = some a ∧ p a = true ∧
        ∀ j, j < i → ∀ b, l[j]? = some b → p b = false := by
  intro l
  induction l with
  | nil => intro a h; simp at h
  | cons x xs ih =>
    intro a h
    by_cases hx : p x = true
    · rw [List.find?_cons_of_pos _ hx] at h
      injection h with h
      subst h
      exact ⟨0, by simp, hx, fun j hj => by omega⟩
    · have hx' : p x = false := by simpa using hx
      rw [List.find?_cons_of_neg _ (by simp [hx'])] at h
      obtain ⟨i, hget, hpa, hprev⟩ := ih a h
      refine ⟨i + 1, by simpa using hget, hpa, ?_⟩
      intro j hj b hb
      cases j with
      | zero =>
        simp at hb
        subst hb
        exact hx'
      | succ k =>
        simp only [List.getElem?_cons_succ] at hb
        exact hprev k (by omega) b hb

theorem find_best_shape (G : NetGraph) (i : ℕ) :
    find_best_path_to_tower G i = (none, none, 0) ∨
    ∃ p, find_best_path_to_tower G i
      = (some p, some (p.length - 1),
         minCapOf G p * RELAY_HOP_PENALTY ^ (p.length - 2)) := by
  rw [find_best_path_to_tower]
  cases pickMinBy (wt G) (simplePathsBetween G (Node.drone i) Node.tower) with
  | none => exact Or.inl rfl
  | some p => exact Or.inr ⟨p, rfl⟩

theorem serve_of_find_some (G : NetGraph) (ds : List Drone) (u : User)
    (d : Drone) (hf : ds.find? (qualifies G u) = some d) :
    d.alive = true ∧ sq2 d.pos u.pos ≤ COVERAGE_RADIUS^2 ∧
    ∃ p h cap, find_best_path_to_tower G d.id = (some p, some h, cap) ∧
      p ≠ [] ∧ 0 < cap ∧
      serve G ds u =
        { u with
          served := true
          throughput := cap
          connected_drone := some d.id
          hops_to_tower := some h } := by
  have hq := List.find?_some hf
  rw [qualifies] at hq
  simp only [Bool.and_eq_true, decide_eq_true_eq] at hq
  obtain ⟨⟨halive, hrad⟩, hmatch⟩ := hq
  rcases find_best_shape G d.id with hfb | ⟨p, hfb⟩
  · rw [hfb] at hmatch
    simp at hmatch
  · rw [hfb] at hmatch
    have hmatch2 : (!p.isEmpty &&
        decide ((0:ℚ) < minCapOf G p * RELAY_HOP_PENALTY ^ (p.length - 2)))
        = true := hmatch
    simp only [Bool.and_eq_true, Bool.not_eq_true', decide_eq_true_eq]
      at hmatch2
    obtain ⟨hne, hpos⟩ := hmatch2
    refine ⟨halive, hrad, p, p.length - 1,
      minCapOf G p * RELAY_HOP_PENALTY ^ (p.length - 2), hfb,
      by simpa [List.isEmpty_iff] using hne, hpos, ?_⟩
    simp only [serve, hf, hfb]

/-- **C5 (amended).** In every tick coverage is recomputed *before* the
movement phase, from the drone positions current at the start of the tick
(the scan, cluster and target phases do not move drones): the tick's users
are the coverage pass over the phase-4 drones — which agree with the
start-of-tick drones on id, position, battery and aliveness — and the
tick's drones then apply movement to those same phase-4 drones.  The
coverage pass clears each user's `served`/`throughput`/`connected_drone`/
`hops_to_tower` fields and serves from the *first* drone in fleet order
that is alive, within `COVERAGE_RADIUS` (planar distance) and has a
positive-capacity path to the tower, recording that path's effective
capacity as the throughput and its hop count; when some drone qualifies,
the user is served in that same tick. -/
theorem C5_coverage_amended (mv : MoveFn) (foff : ℕ → ℚ × ℚ) :
    (∀ s : SimState,
      (update_simulation mv foff s).users =
        coveragePhase (build_network_graph s.drones) (phase4Drones foff s)
          (scannedUsers s) ∧
      (update_simulation mv foff s).drones =
        movePhase mv (phase4Drones foff s) ∧
      (phase4Drones foff s).map physCore = s.drones.map physCore) ∧
    (∀ (G : NetGraph) (ds : List Drone) (u : User),
      (ds.find? (qualifies G u) = none →
        serve G ds u =
          { u with
            served := false
            throughput := 0
            connected_drone := none
            hops_to_tower := none }) ∧
      (∀ d, ds.find? (qualifies G u) = some d →
        d.alive = true ∧ sq2 d.pos u.pos ≤ COVERAGE_RADIUS^2 ∧
        (∃ p h cap, find_best_path_to_tower G d.id = (some p, some h, cap) ∧
          p ≠ [] ∧ 0 < cap ∧
          serve G ds u =
            { u with
              served := true
              throughput := cap
              connected_drone := some d.id
              hops_to_tower := some h }) ∧
        (∃ i : ℕ, ds[i]? = some d ∧ ∀ j, j < i → ∀ d', ds[j]? = some d' →
          qualifies G u d' = false))) ∧
    (∀ (G : NetGraph) (ds : List Drone) (u : User),
      (∃ d ∈ ds, qualifies G u d = true) → (serve G ds u).served = true) := by
  refine ⟨?_, ?_, ?_⟩
  · intro s
    exact ⟨rfl, rfl, tick_ds4_physCore mv foff s⟩
  · intro G ds u
    constructor
    · intro hf
      rw [serve, hf]
    · intro d hf
      obtain ⟨halive, hrad, hrest⟩ := serve_of_find_some G ds u d hf
      refine ⟨halive, hrad, hrest, ?_⟩
      obtain ⟨i, hget, _, hprev⟩ := find_first_aux (qualifies G u) ds d hf
      exact ⟨i, hget, hprev⟩
  · intro G ds u ⟨d, hd, hq⟩
    cases hf : ds.find? (qualifies G u) with
    | none =>
      rw [List.find?_eq_none] at hf
      exact absurd hq (by simpa using hf d hd)
    | some d' =>
      obtain ⟨_, _, p, h, cap, _, _, _, hserve⟩ :=
        serve_of_find_some G ds u d' hf
      rw [hserve]

/-- Witness for the amended C5 at the single-drone fleet of the C5
counterexample: `d5` is found as the serving drone and the victim is
served in the same tick. -/
theorem C5_coverage_amended_witness :
    ([d5].find? (qualifies (build_network_graph [d5]) u5) = some d5) ∧
    d5.alive = true ∧ sq2 d5.pos u5.pos ≤ COVERAGE_RADIUS^2 ∧
    (serve (build_network_graph [d5]) [d5] u5).served = true := by
  have h := (C5_coverage_amended mvC5 foff0).2.1 (build_network_graph [d5])
    [d5] u5
  obtain ⟨halive, hrad, ⟨p, hh, cap, hfb, hne, hpos, hserve⟩, _⟩ :=
    h.2 d5 find5
  refine ⟨find5, halive, hrad, ?_⟩
  exact (C5_coverage_amended mvC5 foff0).2.2 (build_network_graph [d5]) [d5] u5
    ⟨d5, List.mem_cons_self _ _, qualifies5⟩
